import Mathlib

/-!
# Wordle solver: outcome codes, matching, candidate filtering, ranking

A shallow embedding of `wordle.h`, `wordle.cpp` and `dict.h`.

* `const char *` is a function from offsets to characters, `std::string` and
  `std::vector` are lists, `unsigned int` is a natural number below `2 ^ 32`.
* `double` arithmetic is a record of operations `Arith F` over a carrier `F`.
* `std::unordered_map` is an association list; the order in which it is
  iterated and the algorithm behind `std::sort` are parameters, constrained
  only by what the C++ standard promises (`IsIterationOrder`, `IsStdSort`).
-/

namespace WordleSolver

/-! ## Strings and dictionaries -/

/-- A `const char *`: the character found at each offset. -/
abbrev CStr := Nat → Char

/-- The `data()` of a `std::string`; the terminator is read past the end. -/
def data (s : List Char) : CStr := fun i => s.getD i (Char.ofNat 0)

/-- The class `Dict`: words of `word_len` letters stored back to back. -/
structure Dict where
  word_len : Nat
  num_words : Nat
  store : List Char
deriving DecidableEq, Repr

/-- The function `Dict::size`. -/
def Dict.size (d : Dict) : Nat := d.num_words

/-- The function `Dict::get`: pointer to the first letter of word `index`. -/
def Dict.get (d : Dict) (index : Nat) : CStr :=
  fun i => d.store.getD (index * d.word_len + i) (Char.ofNat 0)

/-- The function `Dict::get_str`: the `word_len` letters of word `index`. -/
def Dict.get_str (d : Dict) (index : Nat) : List Char :=
  (List.range d.word_len).map (d.get index)

/-- The class `Wordle`. -/
structure Wordle where
  dict_name : String
  dict_lang : String
  answer_dict : Dict
  full_dict : Dict
  word_len : Nat
deriving DecidableEq, Repr

/-! ## Outcome codes -/

/-- The struct `GuessResult`; `data` is an `unsigned int`. -/
structure GuessResult where
  data : Nat
deriving DecidableEq, Repr

namespace GuessResult

def absent : Nat := 0
def misplaced : Nat := 1
def correct : Nat := 2
def bits_per_elem : Nat := 2
def elem_mask : Nat := (1 <<< bits_per_elem) - 1
def max_length : Nat := 8 * 4 / bits_per_elem

/-- The function `GuessResult::invalid`: `static_cast<data_t>(-1)`. -/
def invalid : GuessResult := ⟨2 ^ 32 - 1⟩

/-- The function `GuessResult::get`. -/
def get (r : GuessResult) (index : Nat) : Nat :=
  (r.data >>> (bits_per_elem * index)) &&& elem_mask

/-- The function `GuessResult::set`; the shifted value is truncated to 32 bits. -/
def set (r : GuessResult) (index : Nat) (value : Nat) : GuessResult :=
  ⟨r.data ||| ((value <<< (bits_per_elem * index)) % 2 ^ 32)⟩

/-- The function `GuessResult::to_str`. -/
def to_str (r : GuessResult) (len : Nat) : List Char :=
  (List.range len).map (fun i => ['-', 'm', 'C', '?'].getD (r.get i) ' ')

/-- The loop of `GuessResult::from`, at position `i` with `str` left to read. -/
def from_loop : List Char → Nat → GuessResult → GuessResult
  | [], _, result => result
  | ch :: str, i, result =>
    if ch = '1' ∨ ch = '-' then from_loop str (i + 1) result
    else if ch = '2' ∨ ch = 'm' then from_loop str (i + 1) (result.set i misplaced)
    else if ch = '3' ∨ ch = 'C' then from_loop str (i + 1) (result.set i correct)
    else invalid

end GuessResult

/-- The conversion of a `size_t` to `int`: the value modulo `2 ^ 32`, read as
a signed number of 32 bits. -/
def to_int (n : Nat) : Int :=
  if n % 2 ^ 32 < 2 ^ 31 then ((n % 2 ^ 32 : Nat) : Int) else ((n % 2 ^ 32 : Nat) : Int) - 2 ^ 32

/-- The function `GuessResult::from`; `word_len` is the length of the string
narrowed to `int`, and the loop reads the characters at positions below it. -/
def GuessResult.from (str : List Char) : GuessResult :=
  let word_len : Int := to_int str.length
  if word_len > (GuessResult.max_length : Int) then GuessResult.invalid
  else GuessResult.from_loop (str.take word_len.toNat) 0 ⟨0⟩

/-- The code that packs symbol `i` of the list into bits `2 * i` and `2 * i + 1`. -/
def encode : List Nat → Nat
  | [] => 0
  | s :: ss => s + 4 * encode ss

/-! ## Matching -/

/-- The inner loop of `match_word`: the first guess position `j` that is still
absent and holds letter `c` becomes misplaced, and the loop stops there. -/
def scan_guess (guess : CStr) (c : Char) : List Nat → GuessResult → GuessResult
  | [], result => result
  | j :: js, result =>
    if result.get j = GuessResult.absent ∧ guess j = c then
      result.set j GuessResult.misplaced
    else scan_guess guess c js result

/-- The first loop of `match_word`. -/
def first_pass (word_len : Nat) (answer guess : CStr) : GuessResult :=
  (List.range word_len).foldl
    (fun result i => if guess i = answer i then result.set i GuessResult.correct else result) ⟨0⟩

/-- The body of the second loop of `match_word`, for answer position `i`. -/
def claim_slot (word_len : Nat) (answer guess : CStr) (result : GuessResult) (i : Nat) :
    GuessResult :=
  if guess i ≠ answer i then scan_guess guess (answer i) (List.range word_len) result
  else result

/-- The function `match_word`. -/
def match_word (word_len : Nat) (answer guess : CStr) : GuessResult :=
  (List.range word_len).foldl (claim_slot word_len answer guess)
    (first_pass word_len answer guess)

/-! ## Floating point, hash maps and sorting -/

/-- The operations on `double` that the solver uses. -/
structure Arith (F : Type) where
  ofInt : Int → F
  log2 : F → F
  add : F → F → F
  sub : F → F → F
  mul : F → F → F
  div : F → F → F
  gt : F → F → Bool

/-- The access `map[key]` followed by an update of the mapped value, which is
created as `dflt` when the key is new. -/
def umap_update {V : Type} (key : Nat) (f : V → V) (dflt : V) : List (Nat × V) → List (Nat × V)
  | [] => [(key, f dflt)]
  | (k, v) :: rest =>
    if k = key then (k, f v) :: rest else (k, v) :: umap_update key f dflt rest

/-- An order in which a hash map may hand out its entries. -/
def IsIterationOrder {α : Type} (iter : List α → List α) : Prop :=
  ∀ l, (iter l).Perm l

/-- A comparator that `std::sort` accepts: a strict weak ordering. -/
def StrictWeak {α : Type} (comp : α → α → Bool) : Prop :=
  (∀ a, comp a a = false) ∧ (∀ a b c, comp a b = true → comp b c = true → comp a c = true) ∧
    (∀ a b c, comp a b = false → comp b c = false → comp a c = false)

/-- What the standard promises of `std::sort`: the elements are rearranged so
that no element compares less than one placed before it. -/
def IsStdSort {α : Type} (sort : (α → α → Bool) → List α → List α) : Prop :=
  ∀ comp, StrictWeak comp → ∀ l,
    (sort comp l).Perm l ∧ (sort comp l).Pairwise (fun x y => comp y x = false)

/-! ## Solver state -/

/-- The struct `GuessChoice`. -/
structure GuessChoice (F : Type) where
  guess_id : Nat
  estimated_entropy : F
  entropy : F
deriving DecidableEq, Repr

/-- The struct `GuessAssessment::Case`. -/
structure Case where
  result : GuessResult
  answers : List Nat
deriving DecidableEq, Repr

/-- The struct `GuessAssessment`. -/
structure GuessAssessment (F : Type) where
  cases : List Case
  entropy : F

/-- The class `WordleState`. -/
structure WordleState (F : Type) where
  wordle : Wordle
  candidates : List Nat
  choices : List (GuessChoice F)
  calculated : Bool
deriving DecidableEq, Repr

/-- The library function `std::vector::resize` on a vector of `int`. -/
def resize (v : List Nat) (n : Nat) : List Nat :=
  v.take n ++ List.replicate (n - v.length) 0

/-- The library function `std::iota` over a whole vector, counting from `value`. -/
def iota : List Nat → Nat → List Nat
  | [], _ => []
  | _ :: v, value => value :: iota v (value + 1)

/-- The library function `std::find_if`: the position of the first element
satisfying `pred`. -/
def find_if (pred : Nat → Bool) : List Nat → Nat
  | [] => 0
  | x :: xs => if pred x then 0 else find_if pred xs + 1

/-- The loop of `std::remove_if`: every element at a position in `is` that
does not satisfy `pred` is moved to position `result`. -/
def remove_if_loop (pred : Nat → Bool) : List Nat → List Nat → Nat → List Nat × Nat
  | [], v, result => (v, result)
  | i :: is, v, result =>
    if !pred (v.getD i 0) then remove_if_loop pred is (v.set result (v.getD i 0)) (result + 1)
    else remove_if_loop pred is v result

/-- The library function `std::remove_if` over a whole vector: the vector
afterwards and the position of the returned iterator. -/
def remove_if (pred : Nat → Bool) (v : List Nat) : List Nat × Nat :=
  let first := find_if pred v
  if first ≠ v.length then
    remove_if_loop pred (List.range' (first + 1) (v.length - (first + 1))) v first
  else (v, first)

namespace WordleState

variable {F : Type}

/-- The function `WordleState::candidate_count`. -/
def candidate_count (st : WordleState F) : Nat := st.candidates.length

/-- The function `WordleState::reset_calculations`. -/
def reset_calculations (st : WordleState F) : WordleState F :=
  { st with choices := [], calculated := false }

/-- The function `WordleState::reset`. -/
def reset (st : WordleState F) : WordleState F :=
  reset_calculations
    { st with candidates := iota (resize st.candidates st.wordle.answer_dict.size) 0 }

/-- The predicate that `WordleState::filter` hands to `std::remove_if`. -/
def mismatch (w : Wordle) (guess : List Char) (result : GuessResult) (answer_id : Nat) : Bool :=
  decide (result ≠ match_word w.word_len (w.answer_dict.get answer_id) (data guess))

/-- The function `WordleState::filter`. -/
def filter (st : WordleState F) (guess : List Char) (result : GuessResult) : WordleState F :=
  let moved := remove_if (mismatch st.wordle guess result) st.candidates
  if moved.2 ≠ moved.1.length then
    reset_calculations { st with candidates := moved.1.take moved.2 }
  else { st with candidates := moved.1 }

/-- The hash map that `WordleState::assess` fills: answers grouped by code. -/
def assess_map (st : WordleState F) (guess : List Char) : List (Nat × List Nat) :=
  st.candidates.foldl
    (fun map answer_id =>
      let result := match_word st.wordle.word_len (st.wordle.answer_dict.get answer_id)
        (data guess)
      umap_update result.data (fun answers => answers ++ [answer_id]) [] map)
    []

/-- The comparator that `WordleState::assess` sorts the map entries with. -/
def assess_comp (a b : Nat × List Nat) : Bool :=
  if a.2.length ≠ b.2.length then decide (a.2.length > b.2.length) else decide (a.1 < b.1)

/-- The function `WordleState::assess`. -/
def assess (ar : Arith F) (iter : List (Nat × List Nat) → List (Nat × List Nat))
    (sort : (Nat × List Nat → Nat × List Nat → Bool) → List (Nat × List Nat) →
      List (Nat × List Nat))
    (st : WordleState F) (guess : List Char) : GuessAssessment F :=
  let entries := iter (assess_map st guess)
  let temp := entries.foldl
    (fun temp it =>
      ar.add temp (ar.mul (ar.ofInt it.2.length) (ar.log2 (ar.ofInt it.2.length))))
    (ar.ofInt 0)
  let iters := sort assess_comp entries
  let candidate_cnt := st.candidates.length
  { cases := iters.map (fun it => ⟨⟨it.1⟩, it.2⟩),
    entropy := ar.sub (ar.log2 (ar.ofInt candidate_cnt)) (ar.div temp (ar.ofInt candidate_cnt)) }

/-- The hash map that `WordleState::calculate` fills for one guess. -/
def count_map (st : WordleState F) (guess : CStr) : List (Nat × Nat) :=
  st.candidates.foldl
    (fun counts answer_id =>
      let result := match_word st.wordle.word_len (st.wordle.answer_dict.get answer_id) guess
      umap_update result.data (fun count => count + 1) 0 counts)
    []

/-- The entropy that `WordleState::calculate` assigns to guess `i`. -/
def guess_entropy (ar : Arith F) (iter : List (Nat × Nat) → List (Nat × Nat))
    (st : WordleState F) (i : Nat) : F :=
  let counts := count_map st (st.wordle.full_dict.get i)
  let temp := (iter counts).foldl
    (fun temp kv => ar.add temp (ar.mul (ar.ofInt kv.2) (ar.log2 (ar.ofInt kv.2))))
    (ar.ofInt 0)
  ar.sub (ar.log2 (ar.ofInt st.candidates.length)) (ar.div temp (ar.ofInt st.candidates.length))

/-- The comparator that `WordleState::calculate` sorts the choices with. -/
def choice_comp (ar : Arith F) (a b : GuessChoice F) : Bool :=
  ar.gt a.entropy b.entropy

/-- The function `WordleState::calculate`. -/
def calculate (ar : Arith F) (iter : List (Nat × Nat) → List (Nat × Nat))
    (sort : (GuessChoice F → GuessChoice F → Bool) → List (GuessChoice F) →
      List (GuessChoice F))
    (st : WordleState F) : WordleState F :=
  if st.calculated then st
  else
    let choices := (List.range st.wordle.full_dict.size).foldl
      (fun choices i => choices ++ [⟨i, ar.ofInt (-1), guess_entropy ar iter st i⟩])
      st.choices
    { st with choices := sort (choice_comp ar) choices, calculated := true }

end WordleState

/-! ## Loading a session -/

/-- A dictionary file as `operator>>` reads it: the leading word count, when
the file starts with an integer, and the words that follow. -/
structure DictFile where
  total_words : Option Int
  words : List (List Char)
deriving DecidableEq, Repr

/-- The lines that `Dict::create` and `Wordle::create` write to `std::cerr`. -/
inductive Diag where
  | cannot_open (fullpath : String)
  | expected_word_count
  | expected_word
  | no_words (word_len : Int)
  | word_length_too_large (expected found : Int)
  | answer_dict_failed
  | full_dict_failed
deriving DecidableEq, Repr

/-- The loop of `Dict::create`: `count` words are read; those of `word_len`
letters are appended to `store` and counted. No result when the words run out. -/
def Dict.read_words (word_len : Int) : Nat → List (List Char) → List Char → Nat →
    Option (List Char × Nat)
  | 0, _, store, num_words => some (store, num_words)
  | _ + 1, [], _, _ => none
  | count + 1, str :: rest, store, num_words =>
    if (str.length : Int) = word_len then
      Dict.read_words word_len count rest (store ++ str) (num_words + 1)
    else Dict.read_words word_len count rest store num_words

/-- The function `Dict::create`, over a file system `fs`: what is written to
`std::cerr`, and the dictionary unless the result is `nullptr`. -/
def Dict.create (fs : String → Option DictFile) (path : String) (word_len : Int) :
    List Diag × Option Dict :=
  let fullpath := "dict/" ++ path ++ ".txt"
  match fs fullpath with
  | none => ([Diag.cannot_open fullpath], none)
  | some fin =>
    match fin.total_words with
    | none => ([Diag.expected_word_count], none)
    | some total_words =>
      match Dict.read_words word_len total_words.toNat fin.words [] 0 with
      | none => ([Diag.expected_word], none)
      | some (store, num_words) =>
        if num_words = 0 then ([Diag.no_words word_len], none)
        else ([], some { word_len := word_len.toNat, num_words := num_words, store := store })

/-- The function `Wordle::create`, over a file system `fs`: what is written to
`std::cerr`, and the session unless the result is `nullptr`. -/
def Wordle.create (fs : String → Option DictFile) (dict_name dict_lang : String)
    (word_len : Int) : List Diag × Option Wordle :=
  let log :=
    if word_len > (GuessResult.max_length : Int) then
      [Diag.word_length_too_large (GuessResult.max_length : Int) word_len]
    else []
  let dict_path := dict_name ++ "/" ++ dict_lang
  match Dict.create fs (dict_path ++ "/answers") word_len with
  | (log_answers, none) => (log ++ log_answers ++ [Diag.answer_dict_failed], none)
  | (log_answers, some answer_dict) =>
    match Dict.create fs (dict_path ++ "/full") word_len with
    | (log_full, none) => (log ++ log_answers ++ log_full ++ [Diag.full_dict_failed], none)
    | (log_full, some full_dict) =>
      (log ++ log_answers ++ log_full,
        some { dict_name := dict_name, dict_lang := dict_lang, answer_dict := answer_dict,
               full_dict := full_dict, word_len := word_len.toNat })

/-! ## The command loop -/

/-- The `calculate` command of `process_input` in `main.cpp`: the message
printed when the command returns `false`, the state afterwards otherwise. -/
def cmd_calculate {F : Type} (ar : Arith F) (iter : List (Nat × Nat) → List (Nat × Nat))
    (sort : (GuessChoice F → GuessChoice F → Bool) → List (GuessChoice F) →
      List (GuessChoice F))
    (state : WordleState F) : Except String (WordleState F) :=
  if 0 = state.candidate_count then
    Except.error "No candidates left, nothing to calculate."
  else Except.ok (state.calculate ar iter sort)

/-- The `assess` command of `process_input` in `main.cpp`; `guess` is the word
read from the command line, if there is one: the message printed when the
command returns `false`, the assessment that is printed otherwise. -/
def cmd_assess {F : Type} (ar : Arith F)
    (iter : List (Nat × List Nat) → List (Nat × List Nat))
    (sort : (Nat × List Nat → Nat × List Nat → Bool) → List (Nat × List Nat) →
      List (Nat × List Nat))
    (state : WordleState F) (guess : Option (List Char)) : Except String (GuessAssessment F) :=
  match guess with
  | none => Except.error "Format: assess <guess>"
  | some guess =>
    if state.wordle.word_len ≠ guess.length then
      Except.error "Incorrect length of guess word."
    else if 0 = state.candidate_count then
      Except.error "No candidates left, nothing to assess."
    else Except.ok (state.assess ar iter sort guess)

/-! ## Notions used in the proofs about `match_word` -/

/-- What holds of the code under construction throughout the second pass. -/
structure MatchInv (L : Nat) (answer guess : CStr) (r : GuessResult) : Prop where
  corr : ∀ j, r.get j = 2 ↔ (j < L ∧ guess j = answer j)
  le2 : ∀ j, r.get j ≤ 2
  out : ∀ j, L ≤ j → r.get j = 0
  left : ∀ j1 j2, j1 < j2 → j2 < L → guess j1 = guess j2 → guess j1 ≠ answer j1 →
    r.get j2 = 1 → r.get j1 = 1

/-- Number of guess positions below `L` holding letter `c` that are marked misplaced. -/
def misCount (L : Nat) (guess : CStr) (r : GuessResult) (c : Char) : Nat :=
  (List.range L).countP (fun j => decide (guess j = c ∧ r.get j = 1))

/-- Number of guess positions below `L` holding letter `c` that are not exact hits. -/
def freeSlots (L : Nat) (answer guess : CStr) (c : Char) : Nat :=
  (List.range L).countP (fun j => decide (guess j = c ∧ guess j ≠ answer j))

/-- Number of answer positions below `n` holding letter `c` that are not exact hits. -/
def freeLetters (n : Nat) (answer guess : CStr) (c : Char) : Nat :=
  (List.range n).countP (fun i => decide (answer i = c ∧ guess i ≠ answer i))


/-! ## Sessions -/

/-- The constructor `WordleState::WordleState`: the members start empty,
`calculated` starts with whatever the memory holds, and `reset` is called. -/
def WordleState.new {F : Type} (wordle : Wordle) (garbage : Bool) : WordleState F :=
  WordleState.reset { wordle := wordle, candidates := [], choices := [], calculated := garbage }

/-- A run of `filter` calls, one per observed round, oldest first. -/
def WordleState.filter_all {F : Type} (st : WordleState F)
    (rounds : List (List Char × GuessResult)) : WordleState F :=
  rounds.foldl (fun s round => s.filter round.1 round.2) st

/-- Whether answer `a` is consistent with every observed round. -/
def consistent (w : Wordle) (rounds : List (List Char × GuessResult)) (a : Nat) : Bool :=
  rounds.all (fun round =>
    decide (match_word w.word_len (w.answer_dict.get a) (data round.1) = round.2))

/-! ## Notions used in the proofs about grouping and sorting -/

/-- Candidates grouped by code in a hash map, as `assess` fills it. -/
def group_by (code : Nat → Nat) (cs : List Nat) : List (Nat × List Nat) :=
  cs.foldl (fun map a => umap_update (code a) (fun answers => answers ++ [a]) [] map) []

/-- What holds of the hash map once the candidates `cs` have been grouped. -/
structure GroupInv (code : Nat → Nat) (cs : List Nat) (m : List (Nat × List Nat)) : Prop where
  nodup : (m.map Prod.fst).Nodup
  mem : ∀ e ∈ m, e.2 = cs.filter (fun a => decide (code a = e.1)) ∧ e.2 ≠ []
  cover : ∀ a ∈ cs, code a ∈ m.map Prod.fst
  total : (m.map (fun e => e.2.length)).sum = cs.length

/-- Insertion sort, one algorithm that meets the promise of `std::sort`. -/
def insertion_sort {α : Type} (comp : α → α → Bool) (l : List α) : List α :=
  List.insertionSort (fun a b => comp b a = false) l

/-- Insertion sort of the reversed input: it also meets the promise of
`std::sort`, and leaves equivalent elements in the reverse of their order. -/
def reverse_insertion_sort {α : Type} (comp : α → α → Bool) (l : List α) : List α :=
  insertion_sort comp l.reverse

/-! ## A small session used to exercise the theorems -/

/-- Answers `AB`, `BA`, `AA`, `CC`; guesses `AB`, `BA`, `AA`, `AX`, `XY`. -/
def demo_wordle : Wordle :=
  { dict_name := "demo", dict_lang := "en",
    answer_dict := ⟨2, 4, ['A', 'B', 'B', 'A', 'A', 'A', 'C', 'C']⟩,
    full_dict := ⟨2, 5, ['A', 'B', 'B', 'A', 'A', 'A', 'A', 'X', 'X', 'Y']⟩,
    word_len := 2 }

/-- The floor of the binary logarithm of `n`, for `n` at most `2 ^ fuel`. -/
def floor_log2 : Nat → Nat → Nat
  | 0, _ => 0
  | fuel + 1, n => if 2 ≤ n then floor_log2 fuel (n / 2) + 1 else 0

/-- Integer arithmetic standing in for `double`, with the floor of the binary
logarithm. With two candidates every value that `calculate` computes is an
integer, so this arithmetic yields what the `double` computation yields. -/
def int_arith : Arith Int :=
  { ofInt := fun n => n, log2 := fun x => (floor_log2 64 x.toNat : Int),
    add := fun x y => x + y, sub := fun x y => x - y, mul := fun x y => x * y,
    div := fun x y => x / y, gt := fun x y => decide (x > y) }

/-- The demo session right after construction. -/
def demo_state (F : Type) : WordleState F := WordleState.new demo_wordle false

/-- The demo session after the guess `AX` was answered `C-`: the candidates
left are `AB` and `AA`. -/
def demo_state_two : WordleState Int := (demo_state Int).filter ['A', 'X'] ⟨2⟩

/-! ## The entropy as the specification writes it -/

/-- Entropy of a guess from the list of the codes it yields, one per
candidate: `log2(N) - (1/N) * Σ c_i * log2(c_i)`, where `N` is the number of
candidates and the `c_i` count the candidates of each distinct code. -/
def entropy_formula {F : Type} [Field F] (log2 : F → F) (codes : List Nat) : F :=
  log2 (codes.length : F) -
    (1 / (codes.length : F)) *
      (codes.dedup.map (fun k => (codes.count k : F) * log2 (codes.count k : F))).sum

/-! ## The text alphabet as the specification lists it -/

/-- The verdict a character of the text form stands for, if it is in the
alphabet: `-` or `1` absent, `m` or `2` misplaced, `C` or `3` correct. -/
def verdict (c : Char) : Option Nat :=
  if c = '-' ∨ c = '1' then some GuessResult.absent
  else if c = 'm' ∨ c = '2' then some GuessResult.misplaced
  else if c = 'C' ∨ c = '3' then some GuessResult.correct
  else none

/-- The symbol of a character, absent for a character outside the alphabet. -/
def symbol (c : Char) : Nat := (verdict c).getD GuessResult.absent

/-! ## More fixtures -/

/-- Integer arithmetic with one more value, `none`, for the results that are
not finite numbers: the logarithm of a number that is not positive, a division
by zero, and every operation on such a result. No comparison with it holds. -/
def nan_arith : Arith (Option Int) :=
  { ofInt := fun n => some n,
    log2 := fun x => x.bind (fun v => if 0 < v then some (floor_log2 64 v.toNat : Int) else none),
    add := fun x y => x.bind (fun a => y.bind (fun b => some (a + b))),
    sub := fun x y => x.bind (fun a => y.bind (fun b => some (a - b))),
    mul := fun x y => x.bind (fun a => y.bind (fun b => some (a * b))),
    div := fun x y => x.bind (fun a => y.bind (fun b => if b = 0 then none else some (a / b))),
    gt := fun x y =>
      match x, y with
      | some a, some b => decide (a > b)
      | _, _ => false }

/-- The demo session after the guess `ZZ` was answered `CC`: no candidate is
left. -/
def demo_state_empty (F : Type) : WordleState F := (demo_state F).filter ['Z', 'Z'] ⟨10⟩

/-- A file system in which every dictionary file holds the one word made of
seventeen letters `A`. -/
def long_word_fs : String → Option DictFile :=
  fun _ => some { total_words := some 1, words := [List.replicate 17 'A'] }

/-! ## Runs of a session -/

/-- A call on a `WordleState`: `reset()`, `filter(guess, result)` or
`calculate()`. -/
inductive SessionOp where
  | reset
  | filter (guess : List Char) (result : GuessResult)
  | calculate
deriving DecidableEq, Repr

/-- The state after one call. -/
def WordleState.step {F : Type} (ar : Arith F) (iter : List (Nat × Nat) → List (Nat × Nat))
    (sort : (GuessChoice F → GuessChoice F → Bool) → List (GuessChoice F) →
      List (GuessChoice F))
    (st : WordleState F) : SessionOp → WordleState F
  | SessionOp.reset => st.reset
  | SessionOp.filter guess result => st.filter guess result
  | SessionOp.calculate => st.calculate ar iter sort

/-- The state after a run of calls, oldest first. -/
def WordleState.run {F : Type} (ar : Arith F) (iter : List (Nat × Nat) → List (Nat × Nat))
    (sort : (GuessChoice F → GuessChoice F → Bool) → List (GuessChoice F) →
      List (GuessChoice F))
    (st : WordleState F) (ops : List SessionOp) : WordleState F :=
  ops.foldl (WordleState.step ar iter sort) st

/-- A run of the demo session: a guess that leaves two candidates, a ranking,
the same guess again, and a second ranking. -/
def demo_ops : List SessionOp :=
  [SessionOp.filter ['A', 'X'] ⟨2⟩, SessionOp.calculate, SessionOp.filter ['A', 'X'] ⟨2⟩,
    SessionOp.calculate]

/-- The cache is either empty and unset, or set and holding the ranking of the
current candidates, which has one entry per guess. -/
def CacheInv {F : Type} (ar : Arith F) (iter : List (Nat × Nat) → List (Nat × Nat))
    (sort : (GuessChoice F → GuessChoice F → Bool) → List (GuessChoice F) →
      List (GuessChoice F))
    (st : WordleState F) : Prop :=
  (st.calculated = false → st.choices = []) ∧
    (st.calculated = true →
      st.choices.length = st.wordle.full_dict.size ∧
        st.choices = (st.reset_calculations.calculate ar iter sort).choices)

/-! ## The `std::sort` of libstdc++

The algorithm of `bits/stl_algo.h`: an introsort loop that partitions around
the median of three while a range holds more than 16 elements, followed by an
insertion sort. Iterators are positions in the vector. -/

/-- The call `comp(i, j)` on two iterators of the vector. -/
def comp_at {α : Type} (comp : α → α → Bool) (v : List α) (i j : Nat) : Bool :=
  match v[i]?, v[j]? with
  | some a, some b => comp a b
  | _, _ => false

/-- The library function `std::iter_swap`. -/
def iter_swap {α : Type} (v : List α) (i j : Nat) : List α :=
  match v[i]?, v[j]? with
  | some a, some b => (v.set i b).set j a
  | _, _ => v

/-- The library function `std::__move_median_to_first`. -/
def move_median_to_first {α : Type} (comp : α → α → Bool) (v : List α)
    (result a b c : Nat) : List α :=
  if comp_at comp v a b then
    if comp_at comp v b c then iter_swap v result b
    else if comp_at comp v a c then iter_swap v result c
    else iter_swap v result a
  else if comp_at comp v a c then iter_swap v result a
  else if comp_at comp v b c then iter_swap v result c
  else iter_swap v result b

/-- The loop `while (comp(first, pivot)) ++first;`. -/
def scan_up {α : Type} (comp : α → α → Bool) (v : List α) (pivot : Nat) : Nat → Nat → Nat
  | 0, first => first
  | fuel + 1, first =>
    if comp_at comp v first pivot then scan_up comp v pivot fuel (first + 1) else first

/-- The loop `while (comp(pivot, last)) --last;`. -/
def scan_down {α : Type} (comp : α → α → Bool) (v : List α) (pivot : Nat) : Nat → Nat → Nat
  | 0, last => last
  | fuel + 1, last =>
    if comp_at comp v pivot last then scan_down comp v pivot fuel (last - 1) else last

/-- The library function `std::__unguarded_partition`: the vector afterwards
and the returned iterator. -/
def unguarded_partition {α : Type} (comp : α → α → Bool) (pivot : Nat) :
    Nat → List α → Nat → Nat → List α × Nat
  | 0, v, first, _ => (v, first)
  | fuel + 1, v, first, last =>
    let first := scan_up comp v pivot v.length first
    let last := scan_down comp v pivot v.length (last - 1)
    if ¬ (first < last) then (v, first)
    else unguarded_partition comp pivot fuel (iter_swap v first last) (first + 1) last

/-- The library function `std::__unguarded_partition_pivot`. -/
def unguarded_partition_pivot {α : Type} (comp : α → α → Bool) (v : List α)
    (first last : Nat) : List α × Nat :=
  let mid := first + (last - first) / 2
  let v := move_median_to_first comp v first (first + 1) mid (last - 1)
  unguarded_partition comp first v.length v (first + 1) last

/-- The library function `std::__introsort_loop`. The heap sort that takes
over when the depth limit is used up, `std::__partial_sort`, is the parameter
`heap_sort`. -/
def introsort_loop {α : Type} (comp : α → α → Bool)
    (heap_sort : (α → α → Bool) → List α → Nat → Nat → List α) :
    Nat → List α → Nat → Nat → Nat → List α
  | 0, v, _, _, _ => v
  | fuel + 1, v, first, last, depth_limit =>
    if last - first > 16 then
      if depth_limit = 0 then heap_sort comp v first last
      else
        let cut := unguarded_partition_pivot comp v first last
        let v := introsort_loop comp heap_sort fuel cut.1 cut.2 last (depth_limit - 1)
        introsort_loop comp heap_sort fuel v first cut.2 (depth_limit - 1)
    else v

/-- The loop of `std::__unguarded_linear_insert`: `val` moves down from
position `last` past the elements it compares less than. The library relies on
an element further down that stops the loop; here it also stops at 0. -/
def linear_insert_loop {α : Type} (comp : α → α → Bool) (val : α) :
    Nat → List α → Nat → List α
  | 0, v, last => v.set last val
  | fuel + 1, v, last =>
    match last with
    | 0 => v.set 0 val
    | next + 1 =>
      match v[next]? with
      | some x =>
        if comp val x then linear_insert_loop comp val fuel (v.set (next + 1) x) next
        else v.set (next + 1) val
      | none => v.set (next + 1) val

/-- The library function `std::__unguarded_linear_insert`. -/
def unguarded_linear_insert {α : Type} (comp : α → α → Bool) (v : List α) (last : Nat) :
    List α :=
  match v[last]? with
  | some val => linear_insert_loop comp val v.length v last
  | none => v

/-- The library function `std::__insertion_sort` on the range from `first` to
`last`. -/
def std_insertion_sort {α : Type} (comp : α → α → Bool) (v : List α) (first last : Nat) :
    List α :=
  (List.range' (first + 1) (last - (first + 1))).foldl
    (fun v i =>
      if comp_at comp v i first then
        match v[i]? with
        | some val => v.take first ++ val :: (v.drop first).take (i - first) ++ v.drop (i + 1)
        | none => v
      else unguarded_linear_insert comp v i)
    v

/-- The library function `std::__unguarded_insertion_sort`. -/
def unguarded_insertion_sort {α : Type} (comp : α → α → Bool) (v : List α)
    (first last : Nat) : List α :=
  (List.range' first (last - first)).foldl (fun v i => unguarded_linear_insert comp v i) v

/-- The library function `std::__final_insertion_sort`. -/
def final_insertion_sort {α : Type} (comp : α → α → Bool) (v : List α) (first last : Nat) :
    List α :=
  if last - first > 16 then
    unguarded_insertion_sort comp (std_insertion_sort comp v first (first + 16))
      (first + 16) last
  else std_insertion_sort comp v first last

/-- The library function `std::sort` as libstdc++ implements it. -/
def libstdcxx_sort {α : Type}
    (heap_sort : (α → α → Bool) → List α → Nat → Nat → List α)
    (comp : α → α → Bool) (v : List α) : List α :=
  if v.length = 0 then v
  else
    final_insertion_sort comp
      (introsort_loop comp heap_sort v.length v 0 v.length
        (floor_log2 v.length v.length * 2))
      0 v.length

/-- A stand-in for the heap sort: the range from `first` to `last` sorted by
insertion. -/
def range_insertion_sort {α : Type} (comp : α → α → Bool) (v : List α) (first last : Nat) :
    List α :=
  v.take first ++ insertion_sort comp ((v.drop first).take (last - first)) ++ v.drop last

/-- A session of one-letter words: answers `A` and `B`, guesses `A` to `Q`,
seventeen of them. -/
def rank_wordle : Wordle :=
  { dict_name := "rank", dict_lang := "en",
    answer_dict := ⟨1, 2, ['A', 'B']⟩,
    full_dict := ⟨1, 17, ['A', 'B', 'C', 'D', 'E', 'F', 'G', 'H', 'I', 'J', 'K', 'L', 'M',
      'N', 'O', 'P', 'Q']⟩,
    word_len := 1 }

/-- The session `rank_wordle` right after construction. -/
def rank_state : WordleState Int := WordleState.new rank_wordle false

/-! ## Binary floating point

A model of the `double` operations that the solver uses, for the examples:
round to nearest, ties to even, on 53 bits. The exponent is not bounded, so
there is no overflow and no subnormal number; the results that are not finite
numbers are one value, `none`. -/

/-- A finite `double`, the number `mant * 2 ^ exp`: zero is `0 * 2 ^ 0`, and
every other value has `2 ^ 52 ≤ |mant| < 2 ^ 53`. -/
structure Binary64 where
  mant : Int
  exp : Int
deriving DecidableEq, Repr

/-- The number of binary digits of `n`, for `n` below `2 ^ fuel`. -/
def bit_length : Nat → Nat → Nat
  | 0, _ => 0
  | fuel + 1, n => if n = 0 then 0 else bit_length fuel (n / 2) + 1

/-- The `double` nearest to `m * 2 ^ e`, ties going to the even significand. -/
def round53 (m e : Int) : Binary64 :=
  let a := m.natAbs
  let n := bit_length 4096 a
  if a = 0 then ⟨0, 0⟩
  else if n ≤ 53 then ⟨m * (2 ^ (53 - n) : Nat), e - ((53 - n : Nat) : Int)⟩
  else
    let s := n - 53
    let q := a / 2 ^ s
    let r := a % 2 ^ s
    let half := 2 ^ (s - 1)
    let up := if r > half ∨ (r = half ∧ q % 2 = 1) then q + 1 else q
    let q2 := if up = 2 ^ 53 then 2 ^ 52 else up
    let s2 := if up = 2 ^ 53 then s + 1 else s
    ⟨if m < 0 then -(q2 : Int) else (q2 : Int), e + (s2 : Int)⟩

/-- The integer `x.mant * 2 ^ (x.exp - e)`, for `e ≤ x.exp`. -/
def Binary64.scaled (x : Binary64) (e : Int) : Int :=
  x.mant * (2 ^ (x.exp - e).toNat : Nat)

/-- The sum of two finite `double` values, rounded. -/
def Binary64.add (x y : Binary64) : Binary64 :=
  round53 (x.scaled (min x.exp y.exp) + y.scaled (min x.exp y.exp)) (min x.exp y.exp)

/-- The difference of two finite `double` values, rounded. -/
def Binary64.sub (x y : Binary64) : Binary64 :=
  round53 (x.scaled (min x.exp y.exp) - y.scaled (min x.exp y.exp)) (min x.exp y.exp)

/-- The product of two finite `double` values, rounded. -/
def Binary64.mul (x y : Binary64) : Binary64 :=
  round53 (x.mant * y.mant) (x.exp + y.exp)

/-- The quotient of two finite `double` values, rounded; `y` is not zero. The
quotient of the significands is taken with 64 more bits, and one more bit
records whether the division left a remainder. -/
def Binary64.div (x y : Binary64) : Binary64 :=
  let num := x.mant.natAbs * 2 ^ 64
  let q := num / y.mant.natAbs
  let sticky := if num % y.mant.natAbs = 0 then 0 else 1
  let m : Int := ((2 * q + sticky : Nat) : Int)
  round53 (if (x.mant < 0) = (y.mant < 0) then m else -m) (x.exp - y.exp - 65)

/-- Whether `x > y`. -/
def Binary64.gt (x y : Binary64) : Bool :=
  decide (x.scaled (min x.exp y.exp) > y.scaled (min x.exp y.exp))

/-- The values of `std::log2` at the integers from 1 to 10, as `double`: the
integer, then the significand and the exponent of its binary logarithm. -/
def log2_table : List (Nat × Int × Int) :=
  [(1, 0, 0),
    (2, 4503599627370496, -52),
    (3, 7138036527644008, -52),
    (4, 4503599627370496, -51),
    (5, 5228517251457905, -51),
    (6, 5820818077507252, -51),
    (7, 6321601290437677, -51),
    (8, 6755399441055744, -51),
    (9, 7138036527644008, -51),
    (10, 7480317065143153, -51)]

/-- The function `std::log2` on the arguments that the examples use: the
integers from 1 to 10. An argument that is zero or negative has no finite
logarithm; other arguments are outside the table. -/
def libm_log2 (x : Binary64) : Option Binary64 :=
  match log2_table.find? (fun t => round53 (t.1 : Int) 0 = x) with
  | some t => some (round53 t.2.1 t.2.2)
  | none => none

/-- The arithmetic of `double`, on the examples. -/
def ieee_arith : Arith (Option Binary64) :=
  { ofInt := fun n => some (round53 n 0),
    log2 := fun x => x.bind libm_log2,
    add := fun x y => x.bind (fun a => y.bind (fun b => some (a.add b))),
    sub := fun x y => x.bind (fun a => y.bind (fun b => some (a.sub b))),
    mul := fun x y => x.bind (fun a => y.bind (fun b => some (a.mul b))),
    div := fun x y =>
      x.bind (fun a => y.bind (fun b => if b.mant = 0 then none else some (a.div b))),
    gt := fun x y =>
      match x, y with
      | some a, some b => a.gt b
      | _, _ => false }

/-- A session of one-letter words: the ten answers `A` to `J` and the one
guess `Z`, against which every answer yields the code 0. -/
def ten_wordle : Wordle :=
  { dict_name := "ten", dict_lang := "en",
    answer_dict := ⟨1, 10, ['A', 'B', 'C', 'D', 'E', 'F', 'G', 'H', 'I', 'J']⟩,
    full_dict := ⟨1, 1, ['Z']⟩,
    word_len := 1 }

/-- The session `ten_wordle` right after construction. -/
def ten_state : WordleState (Option Binary64) := WordleState.new ten_wordle false

/-! ## The entropy from the counts -/

/-- The statements of `calculate` that turn the counts of a hash map, in the
order it hands them out, into the entropy of a guess. -/
def entropy_of_counts {F : Type} (ar : Arith F) (counts : List (Nat × Nat))
    (candidate_cnt : Nat) : F :=
  ar.sub (ar.log2 (ar.ofInt candidate_cnt))
    (ar.div
      (counts.foldl
        (fun temp kv => ar.add temp (ar.mul (ar.ofInt kv.2) (ar.log2 (ar.ofInt kv.2))))
        (ar.ofInt 0))
      (ar.ofInt candidate_cnt))

/-- The distinct codes of a list of codes, each with the number of times it
occurs. -/
def code_counts (codes : List Nat) : List (Nat × Nat) :=
  codes.dedup.map (fun k => (k, codes.count k))

/-! ## Bit-level facts about `get` and `set` -/

namespace GuessResult

theorem get_eq (r : GuessResult) (k : Nat) : r.get k = r.data / 4 ^ k % 4 := by
  unfold get elem_mask bits_per_elem
  have h3 : (1 <<< 2 - 1 : Nat) = 2 ^ 2 - 1 := by decide
  rw [h3, Nat.and_pow_two_sub_one_eq_mod, Nat.shiftRight_eq_div_pow, pow_mul]
  norm_num

theorem get_lt (r : GuessResult) (k : Nat) : r.get k < 4 := by
  rw [get_eq]; exact Nat.mod_lt _ (by decide)

theorem get_testBit (r : GuessResult) (k b : Nat) :
    (r.get k).testBit b = (decide (b < 2) && r.data.testBit (2 * k + b)) := by
  unfold get elem_mask bits_per_elem
  have h3 : (1 <<< 2 - 1 : Nat) = 2 ^ 2 - 1 := by decide
  rw [h3, Nat.testBit_and, Nat.testBit_shiftRight, Nat.testBit_two_pow_sub_one, Bool.and_comm]

theorem set_data (r : GuessResult) (j v : Nat) (hj : j < 16) (hv : v < 4) :
    (r.set j v).data = r.data ||| (v <<< (2 * j)) := by
  show r.data ||| ((v <<< (2 * j)) % 2 ^ 32) = r.data ||| (v <<< (2 * j))
  congr 1
  apply Nat.mod_eq_of_lt
  rw [Nat.shiftLeft_eq]
  calc v * 2 ^ (2 * j) < 4 * 2 ^ (2 * j) := by
        apply Nat.mul_lt_mul_of_pos_right hv (by positivity)
    _ = 2 ^ (2 * j + 2) := by ring
    _ ≤ 2 ^ 32 := Nat.pow_le_pow_right (by decide) (by omega)

theorem testBit_small (v n : Nat) (hv : v < 4) (hn : 2 ≤ n) : v.testBit n = false := by
  apply Nat.testBit_lt_two_pow
  calc v < 2 ^ 2 := hv
    _ ≤ 2 ^ n := Nat.pow_le_pow_right (by decide) hn

theorem get_set_other (r : GuessResult) (j k v : Nat) (hj : j < 16) (hv : v < 4)
    (hk : k ≠ j) : (r.set j v).get k = r.get k := by
  apply Nat.eq_of_testBit_eq
  intro b
  rw [get_testBit, get_testBit, set_data r j v hj hv, Nat.testBit_or, Nat.testBit_shiftLeft]
  by_cases hb : b < 2
  · by_cases hle : 2 * j ≤ 2 * k + b
    · have : v.testBit (2 * k + b - 2 * j) = false := testBit_small v _ hv (by omega)
      simp [this]
    · simp [hle]
  · simp [hb]

theorem get_set_same (r : GuessResult) (j v : Nat) (hj : j < 16) (hv : v < 4)
    (h0 : r.get j = 0) : (r.set j v).get j = v := by
  apply Nat.eq_of_testBit_eq
  intro b
  have h0b := get_testBit r j b
  rw [h0, Nat.zero_testBit] at h0b
  rw [get_testBit, set_data r j v hj hv, Nat.testBit_or, Nat.testBit_shiftLeft]
  by_cases hb : b < 2
  · simp only [hb, decide_True, Bool.true_and] at h0b ⊢
    rw [← h0b]
    simp
  · have : v.testBit b = false := testBit_small v b hv (by omega)
    simp [hb, this]

end GuessResult

theorem GuessResult.ext_get (r s : GuessResult) (h : ∀ j, r.get j = s.get j) : r = s := by
  cases r with | mk x => cases s with | mk y =>
  congr 1
  apply Nat.eq_of_testBit_eq
  intro n
  have h1 := GuessResult.get_testBit ⟨x⟩ (n / 2) (n % 2)
  have h2 := GuessResult.get_testBit ⟨y⟩ (n / 2) (n % 2)
  rw [h (n / 2)] at h1
  rw [h1] at h2
  have hn : 2 * (n / 2) + n % 2 = n := Nat.div_add_mod n 2
  have hlt : n % 2 < 2 := Nat.mod_lt _ (by decide)
  simpa [hn, hlt] using h2

theorem get_zero (j : Nat) : (GuessResult.mk 0).get j = 0 := by
  rw [GuessResult.get_eq]; simp

theorem first_pass_get (answer guess : CStr) (n : Nat) (hn : n ≤ 16) (j : Nat) :
    (first_pass n answer guess).get j = if j < n ∧ guess j = answer j then 2 else 0 := by
  induction n with
  | zero => simp [first_pass, get_zero]
  | succ n ih =>
    have ih := ih (by omega)
    unfold first_pass at ih ⊢
    rw [List.range_succ, List.foldl_append]
    simp only [List.foldl_cons, List.foldl_nil]
    by_cases hg : guess n = answer n
    · rw [if_pos hg]
      by_cases hj : j = n
      · subst hj
        rw [GuessResult.get_set_same _ _ _ (by omega) (by decide) (by rw [ih]; simp)]
        simp [hg, GuessResult.correct]
      · rw [GuessResult.get_set_other _ _ _ _ (by omega) (by decide) hj, ih]
        have : (j < n + 1) ↔ j < n := by omega
        simp [this]
    · rw [if_neg hg, ih]
      by_cases hj : j = n
      · subst hj; simp [hg]
      · have : (j < n + 1) ↔ j < n := by omega
        simp [this]

/-- Outcome of the inner scan loop over guess positions `s, s+1, ..., s+n-1`. -/
theorem scan_guess_range (guess : CStr) (c : Char) (r : GuessResult) (n s : Nat) :
    (∃ j, s ≤ j ∧ j < s + n ∧ r.get j = 0 ∧ guess j = c ∧
        (∀ x, s ≤ x → x < j → ¬ (r.get x = 0 ∧ guess x = c)) ∧
        scan_guess guess c (List.range' s n) r = r.set j 1) ∨
    ((∀ x, s ≤ x → x < s + n → ¬ (r.get x = 0 ∧ guess x = c)) ∧
        scan_guess guess c (List.range' s n) r = r) := by
  induction n generalizing s with
  | zero =>
    right
    exact ⟨fun x h1 h2 => by omega, rfl⟩
  | succ n ih =>
    rw [List.range'_succ]
    unfold scan_guess
    by_cases hc : r.get s = GuessResult.absent ∧ guess s = c
    · rw [if_pos hc]
      left
      exact ⟨s, le_refl _, by omega, hc.1, hc.2, fun x h1 h2 => by omega, rfl⟩
    · rw [if_neg hc]
      rcases ih (s + 1) with ⟨j, h1, h2, h3, h4, h5, h6⟩ | ⟨h1, h2⟩
      · left
        refine ⟨j, by omega, by omega, h3, h4, ?_, h6⟩
        intro x hx1 hx2
        by_cases hxs : x = s
        · subst hxs; exact hc
        · exact h5 x (by omega) hx2
      · right
        refine ⟨?_, h2⟩
        intro x hx1 hx2
        by_cases hxs : x = s
        · subst hxs; exact hc
        · exact h1 x (by omega) (by omega)


theorem claim_slot_cases (L : Nat) (answer guess : CStr) (r : GuessResult) (i : Nat) :
    (guess i ≠ answer i ∧ ∃ j, j < L ∧ r.get j = 0 ∧ guess j = answer i ∧
        (∀ x, x < j → ¬ (r.get x = 0 ∧ guess x = answer i)) ∧
        claim_slot L answer guess r i = r.set j 1) ∨
    (guess i ≠ answer i ∧ (∀ x, x < L → ¬ (r.get x = 0 ∧ guess x = answer i)) ∧
        claim_slot L answer guess r i = r) ∨
    (guess i = answer i ∧ claim_slot L answer guess r i = r) := by
  unfold claim_slot
  by_cases hg : guess i = answer i
  · right; right
    exact ⟨hg, by simp [hg]⟩
  · rw [if_pos hg, List.range_eq_range']
    rcases scan_guess_range guess (answer i) r L 0 with ⟨j, _, h2, h3, h4, h5, h6⟩ | ⟨h1, h2⟩
    · left
      exact ⟨hg, j, by omega, h3, h4, fun x hx => h5 x (Nat.zero_le _) hx, h6⟩
    · right; left
      exact ⟨hg, fun x hx => h1 x (Nat.zero_le _) (by omega), h2⟩

theorem first_pass_inv (L : Nat) (answer guess : CStr) (hL : L ≤ 16) :
    MatchInv L answer guess (first_pass L answer guess) := by
  have hget := first_pass_get answer guess L hL
  constructor
  · intro j; rw [hget]; by_cases h : j < L ∧ guess j = answer j <;> simp [h]
  · intro j; rw [hget]; split <;> omega
  · intro j hj; rw [hget]; rw [if_neg]; intro h; omega
  · intro j1 j2 _ _ _ _ h
    rw [hget] at h
    split at h <;> omega

theorem MatchInv.set_misplaced {L : Nat} {answer guess : CStr} {r : GuessResult}
    (hL : L ≤ 16) (inv : MatchInv L answer guess r) (c : Char) (j : Nat) (hj : j < L)
    (h0 : r.get j = 0) (hc : guess j = c)
    (hfirst : ∀ x, x < j → ¬ (r.get x = 0 ∧ guess x = c)) :
    MatchInv L answer guess (r.set j 1) := by
  have same : (r.set j 1).get j = 1 := GuessResult.get_set_same r j 1 (by omega) (by decide) h0
  have other : ∀ k, k ≠ j → (r.set j 1).get k = r.get k :=
    fun k hk => GuessResult.get_set_other r j k 1 (by omega) (by decide) hk
  have hng : ¬ (j < L ∧ guess j = answer j) := by
    intro h
    have := (inv.corr j).2 h
    omega
  constructor
  · intro k
    by_cases hk : k = j
    · subst hk
      rw [same]
      constructor
      · intro h; omega
      · intro h; exact absurd h hng
    · rw [other k hk]; exact inv.corr k
  · intro k
    by_cases hk : k = j
    · subst hk; rw [same]; omega
    · rw [other k hk]; exact inv.le2 k
  · intro k hk
    rw [other k (by omega)]
    exact inv.out k hk
  · intro j1 j2 h12 h2L hgg hne hmis
    by_cases h1 : j1 = j
    · subst h1; exact same
    · rw [other j1 h1]
      by_cases h2 : j2 = j
      · subst h2
        have hn0 : r.get j1 ≠ 0 := fun hz => hfirst j1 h12 ⟨hz, by rw [hgg, hc]⟩
        have hn2 : r.get j1 ≠ 2 := fun h2 => hne ((inv.corr j1).1 h2).2
        have := inv.le2 j1
        omega
      · rw [other j2 h2] at hmis
        exact inv.left j1 j2 h12 h2L hgg hne hmis

theorem claim_slot_inv {L : Nat} {answer guess : CStr} {r : GuessResult}
    (hL : L ≤ 16) (inv : MatchInv L answer guess r) (i : Nat) :
    MatchInv L answer guess (claim_slot L answer guess r i) := by
  rcases claim_slot_cases L answer guess r i with
    ⟨_, j, hj, h0, hc, hfirst, heq⟩ | ⟨_, _, heq⟩ | ⟨_, heq⟩
  · rw [heq]; exact inv.set_misplaced hL (answer i) j hj h0 hc hfirst
  · rw [heq]; exact inv
  · rw [heq]; exact inv

theorem foldl_claim_inv {L : Nat} {answer guess : CStr} (hL : L ≤ 16) (is : List Nat)
    (r : GuessResult) (inv : MatchInv L answer guess r) :
    MatchInv L answer guess (is.foldl (claim_slot L answer guess) r) := by
  induction is generalizing r with
  | nil => exact inv
  | cons i is ih => exact ih _ (claim_slot_inv hL inv i)

theorem match_word_inv (L : Nat) (answer guess : CStr) (hL : L ≤ 16) :
    MatchInv L answer guess (match_word L answer guess) :=
  foldl_claim_inv hL _ _ (first_pass_inv L answer guess hL)

theorem encode_get (syms : List Nat) (hs : ∀ s ∈ syms, s < 4) (j : Nat) :
    (GuessResult.mk (encode syms)).get j = syms.getD j 0 := by
  rw [GuessResult.get_eq]
  induction syms generalizing j with
  | nil => simp [encode]
  | cons s ss ih =>
    have hs0 : s < 4 := hs s (List.mem_cons_self _ _)
    have ih := fun j => ih (fun x hx => hs x (List.mem_cons_of_mem _ hx)) j
    cases j with
    | zero =>
      simp only [encode, pow_zero, Nat.div_one, List.getD_cons_zero]
      omega
    | succ j =>
      simp only [encode, List.getD_cons_succ]
      rw [← ih j, pow_succ, mul_comm (4 ^ j) 4, ← Nat.div_div_eq_div_mul]
      congr 2
      show (s + 4 * encode ss) / 4 = encode ss
      omega


theorem replicate_getD (L j v : Nat) :
    (List.replicate L v).getD j 0 = if j < L then v else 0 := by
  rw [List.getD_eq_getElem?_getD, List.getElem?_replicate]
  split <;> rfl

theorem countP_bump (l : List Nat) (hl : l.Nodup) (j : Nat) (hj : j ∈ l) (p q : Nat → Bool)
    (hp : p j = false) (hq : q j = true) (hpq : ∀ x, x ≠ j → q x = p x) :
    l.countP q = l.countP p + 1 := by
  induction l with
  | nil => cases hj
  | cons a l ih =>
    rw [List.nodup_cons] at hl
    by_cases ha : a = j
    · subst ha
      have hrest : l.countP q = l.countP p := by
        apply List.countP_congr
        intro x hx
        have : x ≠ a := fun h => hl.1 (h ▸ hx)
        rw [hpq x this]
      rw [List.countP_cons_of_pos _ _ hq, List.countP_cons_of_neg _ _ (by simp [hp]), hrest]
    · have hj2 : j ∈ l := by
        rcases List.mem_cons.1 hj with h | h
        · exact absurd h.symm ha
        · exact h
      have := ih hl.2 hj2
      simp only [List.countP_cons, this, hpq a ha]
      omega

theorem countP_split (l : List Nat) (p q : Nat → Bool) :
    l.countP p = l.countP (fun x => p x && q x) + l.countP (fun x => p x && !q x) := by
  induction l with
  | nil => rfl
  | cons a l ih =>
    simp only [List.countP_cons, ih]
    cases p a <;> cases q a <;> simp <;> omega


theorem freeLetters_succ (n : Nat) (answer guess : CStr) (c : Char) :
    freeLetters (n + 1) answer guess c =
      freeLetters n answer guess c + (if answer n = c ∧ guess n ≠ answer n then 1 else 0) := by
  unfold freeLetters
  rw [List.range_succ, List.countP_append]
  simp [List.countP_cons]

theorem misCount_le_freeSlots {L : Nat} {answer guess : CStr} {r : GuessResult}
    (inv : MatchInv L answer guess r) (c : Char) :
    misCount L guess r c ≤ freeSlots L answer guess c := by
  unfold misCount freeSlots
  apply List.countP_mono_left
  intro x hx h
  simp only [decide_eq_true_eq] at h ⊢
  refine ⟨h.1, fun hg => ?_⟩
  have := (inv.corr x).2 ⟨List.mem_range.1 hx, hg⟩
  omega

theorem claim_slot_count {L : Nat} {answer guess : CStr} {r : GuessResult}
    (hL : L ≤ 16) (inv : MatchInv L answer guess r) (i k : Nat) (c : Char)
    (hcnt : misCount L guess r c = min k (freeSlots L answer guess c)) :
    misCount L guess (claim_slot L answer guess r i) c =
      min (k + (if answer i = c ∧ guess i ≠ answer i then 1 else 0))
        (freeSlots L answer guess c) := by
  rcases claim_slot_cases L answer guess r i with
    ⟨hne, j, hj, h0, hc, hfirst, heq⟩ | ⟨hne, hnone, heq⟩ | ⟨hg, heq⟩
  · rw [heq]
    have inv2 := inv.set_misplaced hL (answer i) j hj h0 hc hfirst
    have same : (r.set j 1).get j = 1 :=
      GuessResult.get_set_same r j 1 (by omega) (by decide) h0
    have other : ∀ x, x ≠ j → (r.set j 1).get x = r.get x :=
      fun x hx => GuessResult.get_set_other r j x 1 (by omega) (by decide) hx
    by_cases hci : answer i = c
    · have hbump : misCount L guess (r.set j 1) c = misCount L guess r c + 1 := by
        unfold misCount
        apply countP_bump _ (List.nodup_range L) j (List.mem_range.2 hj)
        · simp [h0]
        · simp [same, hc, hci]
        · intro x hx; rw [other x hx]
      have hle := misCount_le_freeSlots inv2 c
      rw [if_pos ⟨hci, hne⟩]
      rw [hbump] at hle ⊢
      omega
    · have hsame : misCount L guess (r.set j 1) c = misCount L guess r c := by
        unfold misCount
        apply List.countP_congr
        intro x _
        by_cases hx : x = j
        · subst hx
          have : guess x ≠ c := fun h => hci (hc.symm.trans h)
          simp [this]
        · rw [other x hx]
      rw [if_neg (fun h => hci h.1), hsame, hcnt]
      rfl
  · rw [heq]
    by_cases hci : answer i = c
    · have hfull : misCount L guess r c = freeSlots L answer guess c := by
        unfold misCount freeSlots
        apply List.countP_congr
        intro x hx
        have hxL := List.mem_range.1 hx
        simp only [decide_eq_true_eq]
        constructor
        · rintro ⟨h1, h2⟩
          refine ⟨h1, fun hg => ?_⟩
          have := (inv.corr x).2 ⟨hxL, hg⟩
          omega
        · rintro ⟨h1, h2⟩
          refine ⟨h1, ?_⟩
          have hn0 : r.get x ≠ 0 := fun hz => hnone x hxL ⟨hz, by rw [h1, hci]⟩
          have hn2 : r.get x ≠ 2 := fun h => h2 ((inv.corr x).1 h).2
          have := inv.le2 x
          omega
      rw [if_pos ⟨hci, hne⟩]
      rw [hfull] at hcnt ⊢
      omega
    · rw [if_neg (fun h => hci h.1), hcnt]; rfl
  · rw [heq, if_neg (fun h => h.2 hg), hcnt]; rfl

theorem foldl_claim_count {L : Nat} {answer guess : CStr} (hL : L ≤ 16) (c : Char) (n : Nat) :
    MatchInv L answer guess
        ((List.range n).foldl (claim_slot L answer guess) (first_pass L answer guess)) ∧
      misCount L guess
        ((List.range n).foldl (claim_slot L answer guess) (first_pass L answer guess)) c =
      min (freeLetters n answer guess c) (freeSlots L answer guess c) := by
  induction n with
  | zero =>
    refine ⟨first_pass_inv L answer guess hL, ?_⟩
    have h0 : misCount L guess (first_pass L answer guess) c = 0 := by
      unfold misCount
      rw [List.countP_eq_zero]
      intro x _
      have := first_pass_get answer guess L hL x
      simp only [decide_eq_true_eq, not_and]
      intro _ h1
      rw [h1] at this
      split at this <;> omega
    simp [h0, freeLetters]
  | succ n ih =>
    rw [List.range_succ, List.foldl_append]
    simp only [List.foldl_cons, List.foldl_nil]
    refine ⟨claim_slot_inv hL ih.1 n, ?_⟩
    rw [freeLetters_succ]
    exact claim_slot_count hL ih.1 n _ c ih.2


/-! ## `std::remove_if` and the candidate list -/

theorem take_set_self (l : List Nat) (n a : Nat) : (l.set n a).take n = l.take n := by
  rw [List.set_take]
  apply List.set_eq_of_length_le
  simp

theorem take_succ_set (l : List Nat) (n a : Nat) (h : n < l.length) :
    (l.set n a).take (n + 1) = l.take n ++ [a] := by
  rw [List.take_succ, take_set_self, List.getElem?_set_self h]
  rfl

theorem find_if_spec (pred : Nat → Bool) (v : List Nat) :
    find_if pred v ≤ v.length ∧
      (∀ x ∈ v.take (find_if pred v), pred x = false) ∧
      (find_if pred v < v.length → pred (v.getD (find_if pred v) 0) = true) := by
  induction v with
  | nil => simp [find_if]
  | cons a v ih =>
    unfold find_if
    by_cases ha : pred a = true
    · simp [ha]
    · rw [if_neg ha]
      obtain ⟨h1, h2, h3⟩ := ih
      refine ⟨by simpa using h1, ?_, ?_⟩
      · intro x hx
        rw [List.take_succ_cons, List.mem_cons] at hx
        rcases hx with hx | hx
        · subst hx; simpa using ha
        · exact h2 x hx
      · intro hlt
        rw [List.getD_cons_succ]
        exact h3 (by simpa using hlt)

theorem remove_if_loop_spec (pred : Nat → Bool) (n : Nat) :
    ∀ (s : Nat) (v : List Nat) (result : Nat), result < s → s + n = v.length →
      ((remove_if_loop pred (List.range' s n) v result).1.take
          (remove_if_loop pred (List.range' s n) v result).2 =
        v.take result ++ (v.drop s).filter (fun x => !pred x)) ∧
      (remove_if_loop pred (List.range' s n) v result).1.length = v.length ∧
      (remove_if_loop pred (List.range' s n) v result).2 < v.length := by
  induction n with
  | zero =>
    intro s v result hr hs
    have hs2 : v.length ≤ s := by omega
    simp [remove_if_loop, List.drop_eq_nil_of_le hs2]
    omega
  | succ n ih =>
    intro s v result hr hs
    have hsl : s < v.length := by omega
    rw [List.range'_succ]
    unfold remove_if_loop
    have hx : v.getD s 0 = v[s] := List.getD_eq_getElem v 0 hsl
    have hdrop : v.drop s = v[s] :: v.drop (s + 1) := List.drop_eq_getElem_cons hsl
    by_cases hp : pred v[s] = true
    · have hcond : ¬ ((!pred (v.getD s 0)) = true) := by rw [hx]; simp [hp]
      rw [if_neg hcond]
      obtain ⟨h1, h2, h3⟩ := ih (s + 1) v result (by omega) (by omega)
      refine ⟨?_, h2, h3⟩
      rw [h1, hdrop, List.filter_cons_of_neg (by simp [hp])]
    · have hcond : (!pred (v.getD s 0)) = true := by rw [hx]; simpa using hp
      rw [if_pos hcond]
      obtain ⟨h1, h2, h3⟩ := ih (s + 1) (v.set result (v.getD s 0)) (result + 1) (by omega)
        (by rw [List.length_set]; omega)
      rw [List.length_set] at h2 h3
      refine ⟨?_, h2, h3⟩
      rw [h1, take_succ_set v result _ (by omega), List.drop_set, if_pos (by omega), hdrop,
        List.filter_cons_of_pos (by simpa using hp), hx]
      simp

/-- What `std::remove_if` leaves: the elements not satisfying `pred`, in their
original order, before the returned position; an untouched vector when that
position is the end. -/
theorem remove_if_spec (pred : Nat → Bool) (v : List Nat) :
    (remove_if pred v).1.take (remove_if pred v).2 = v.filter (fun x => !pred x) ∧
      (remove_if pred v).1.length = v.length ∧
      ((remove_if pred v).2 = (remove_if pred v).1.length →
        (remove_if pred v).1 = v ∧ v.filter (fun x => !pred x) = v) := by
  obtain ⟨hle, hpre, hat⟩ := find_if_spec pred v
  have hkeep : (v.take (find_if pred v)).filter (fun x => !pred x) = v.take (find_if pred v) := by
    rw [List.filter_eq_self]
    intro x hx
    simp [hpre x hx]
  unfold remove_if
  by_cases hf : find_if pred v = v.length
  · rw [if_neg (not_not.2 hf)]
    rw [hf, List.take_length] at hkeep
    refine ⟨?_, rfl, fun _ => ⟨rfl, hkeep⟩⟩
    show v.take (find_if pred v) = _
    rw [hf, List.take_length, hkeep]
  · have hlt : find_if pred v < v.length := by omega
    simp only [ne_eq, hf, not_false_eq_true, if_true]
    obtain ⟨h1, h2, h3⟩ := remove_if_loop_spec pred (v.length - (find_if pred v + 1))
      (find_if pred v + 1) v (find_if pred v) (by omega) (by omega)
    refine ⟨?_, h2, fun h => ?_⟩
    · rw [h1]
      conv_rhs => rw [← List.take_append_drop (find_if pred v) v]
      rw [List.filter_append, hkeep, List.drop_eq_getElem_cons hlt,
        List.filter_cons_of_neg]
      have := hat hlt
      rw [List.getD_eq_getElem v 0 hlt] at this
      simp [this]
    · rw [h2] at h
      omega

theorem filter_candidates {F : Type} (st : WordleState F) (guess : List Char)
    (result : GuessResult) :
    (st.filter guess result).candidates =
      st.candidates.filter (fun a =>
        decide (match_word st.wordle.word_len (st.wordle.answer_dict.get a) (data guess) =
          result)) := by
  obtain ⟨h1, _, h3⟩ := remove_if_spec (WordleState.mismatch st.wordle guess result) st.candidates
  have hpred : (fun x => !WordleState.mismatch st.wordle guess result x) =
      (fun a => decide (match_word st.wordle.word_len (st.wordle.answer_dict.get a)
        (data guess) = result)) := by
    funext a
    unfold WordleState.mismatch
    by_cases h : result = match_word st.wordle.word_len (st.wordle.answer_dict.get a) (data guess)
    · simp [h]
    · simp [h, Ne.symm h]
  rw [hpred] at h1 h3
  unfold WordleState.filter
  simp only
  split
  · simp only [WordleState.reset_calculations]
    exact h1
  · next h =>
    have h := not_not.1 h
    obtain ⟨h4, h5⟩ := h3 h
    simp only
    rw [h4, h5]

theorem filter_wordle {F : Type} (st : WordleState F) (guess : List Char)
    (result : GuessResult) : (st.filter guess result).wordle = st.wordle := by
  unfold WordleState.filter
  simp only
  split <;> rfl

theorem iota_eq_range' (v : List Nat) (k : Nat) : iota v k = List.range' k v.length := by
  induction v generalizing k with
  | nil => rfl
  | cons a v ih => simp [iota, ih, List.range'_succ]

theorem resize_length (v : List Nat) (n : Nat) : (resize v n).length = n := by
  unfold resize
  simp only [List.length_append, List.length_take, List.length_replicate]
  omega

theorem reset_candidates {F : Type} (st : WordleState F) :
    st.reset.candidates = List.range st.wordle.answer_dict.size := by
  unfold WordleState.reset WordleState.reset_calculations
  simp only
  rw [iota_eq_range', resize_length, List.range_eq_range']

theorem filter_all_spec {F : Type} (rounds : List (List Char × GuessResult))
    (st : WordleState F) :
    (st.filter_all rounds).wordle = st.wordle ∧
      (st.filter_all rounds).candidates = st.candidates.filter (consistent st.wordle rounds) := by
  induction rounds generalizing st with
  | nil =>
    refine ⟨rfl, ?_⟩
    show st.candidates = _
    rw [eq_comm, List.filter_eq_self]
    intro a _
    rfl
  | cons round rounds ih =>
    obtain ⟨h1, h2⟩ := ih (st.filter round.1 round.2)
    have hw := filter_wordle st round.1 round.2
    have hstep : st.filter_all (round :: rounds) =
        (st.filter round.1 round.2).filter_all rounds := rfl
    rw [hstep, h1, h2, hw, filter_candidates, List.filter_filter]
    refine ⟨rfl, ?_⟩
    congr 1
    funext a
    simp only [consistent, List.all_cons]
    rw [Bool.and_comm]

theorem filter_demo : demo_state_two.candidates = [0, 2] ∧ demo_state_two.choices = [] ∧
    ((demo_state Int).filter ['X', 'Y'] ⟨0⟩).candidates = [0, 1, 2, 3] := by decide

/-! ## The cached ranking under `filter` and `reset` -/

theorem find_if_eq_length (pred : Nat → Bool) (v : List Nat)
    (h : ∀ x ∈ v, pred x = false) : find_if pred v = v.length := by
  induction v with
  | nil => rfl
  | cons a v ih =>
    unfold find_if
    rw [if_neg (by rw [h a (List.mem_cons_self _ _)]; simp),
      ih (fun x hx => h x (List.mem_cons_of_mem _ hx))]
    rfl

theorem remove_if_noop (pred : Nat → Bool) (v : List Nat)
    (h : ∀ x ∈ v, pred x = false) : remove_if pred v = (v, v.length) := by
  unfold remove_if
  simp only [find_if_eq_length pred v h, ne_eq, not_true_eq_false, if_false]

theorem filter_noop {F : Type} (st : WordleState F) (guess : List Char) (result : GuessResult)
    (h : ∀ a ∈ st.candidates, WordleState.mismatch st.wordle guess result a = false) :
    st.filter guess result = st := by
  unfold WordleState.filter
  simp only [remove_if_noop _ _ h, ne_eq, not_true_eq_false, if_false]

theorem filter_clears {F : Type} (st : WordleState F) (guess : List Char)
    (result : GuessResult)
    (h : ∃ a ∈ st.candidates, WordleState.mismatch st.wordle guess result a = true) :
    (st.filter guess result).choices = [] ∧ (st.filter guess result).calculated = false := by
  obtain ⟨_, _, h3⟩ := remove_if_spec (WordleState.mismatch st.wordle guess result)
    st.candidates
  unfold WordleState.filter
  simp only
  split
  · exact ⟨rfl, rfl⟩
  · next hend =>
    exfalso
    obtain ⟨a, ha, hpa⟩ := h
    have hkeep := (h3 (not_not.1 hend)).2
    have hmem : a ∈ st.candidates.filter
        (fun x => !WordleState.mismatch st.wordle guess result x) := by
      rw [hkeep]; exact ha
    rw [List.mem_filter, hpa] at hmem
    exact absurd hmem.2 (by decide)

theorem mismatch_false_iff (w : Wordle) (guess : List Char) (result : GuessResult) (a : Nat) :
    WordleState.mismatch w guess result a = false ↔
      match_word w.word_len (w.answer_dict.get a) (data guess) = result := by
  unfold WordleState.mismatch
  rw [decide_eq_false_iff_not, not_not]
  exact eq_comm

/-! ## The text form of a code -/

theorem from_loop_to_str (code : GuessResult) (n : Nat) :
    ∀ (s : Nat) (r : GuessResult), s + n ≤ 16 →
      (∀ i, i < s + n → code.get i ≤ 2) →
      (∀ j, r.get j = if j < s then code.get j else 0) →
      ∀ j, (GuessResult.from_loop
          ((List.range' s n).map (fun i => ['-', 'm', 'C', '?'].getD (code.get i) ' ')) s r).get j =
        if j < s + n then code.get j else 0 := by
  induction n with
  | zero =>
    intro s r _ _ hr j
    simpa [GuessResult.from_loop] using hr j
  | succ n ih =>
    intro s r hs hsym hr j
    rw [List.range'_succ, List.map_cons]
    have hv := hsym s (by omega)
    have hr0 : r.get s = 0 := by rw [hr s]; simp
    have hstep : ∀ r2 : GuessResult, (∀ j, r2.get j = if j < s + 1 then code.get j else 0) →
        (GuessResult.from_loop
          ((List.range' (s + 1) n).map (fun i => ['-', 'm', 'C', '?'].getD (code.get i) ' '))
          (s + 1) r2).get j = if j < s + (n + 1) then code.get j else 0 := by
      intro r2 h2
      have := ih (s + 1) r2 (by omega) (fun i hi => hsym i (by omega)) h2 j
      rw [this]
      have : (j < s + 1 + n) ↔ (j < s + (n + 1)) := by omega
      simp only [this]
    have hset : ∀ v, v < 4 → code.get s = v →
        ∀ j, (r.set s v).get j = if j < s + 1 then code.get j else 0 := by
      intro v hv4 hcv j
      by_cases hj : j = s
      · subst hj
        rw [GuessResult.get_set_same r j v (by omega) hv4 hr0, if_pos (by omega), hcv]
      · rw [GuessResult.get_set_other r s j v (by omega) hv4 hj, hr j]
        by_cases hlt : j < s
        · rw [if_pos hlt, if_pos (by omega)]
        · rw [if_neg hlt, if_neg (by omega)]
    have h012 : code.get s = 0 ∨ code.get s = 1 ∨ code.get s = 2 := by omega
    rcases h012 with h | h | h
    · rw [h]
      have hc : (['-', 'm', 'C', '?'].getD 0 ' ') = '-' := rfl
      rw [hc]
      unfold GuessResult.from_loop
      rw [if_pos (Or.inr rfl)]
      apply hstep
      intro j
      by_cases hj : j = s
      · subst hj; rw [hr0, if_pos (by omega), h]
      · rw [hr j]
        by_cases hlt : j < s
        · rw [if_pos hlt, if_pos (by omega)]
        · rw [if_neg hlt, if_neg (by omega)]
    · rw [h]
      have hc : (['-', 'm', 'C', '?'].getD 1 ' ') = 'm' := rfl
      rw [hc]
      unfold GuessResult.from_loop
      rw [if_neg (by decide), if_pos (Or.inr rfl)]
      exact hstep _ (hset 1 (by decide) h)
    · rw [h]
      have hc : (['-', 'm', 'C', '?'].getD 2 ' ') = 'C' := rfl
      rw [hc]
      unfold GuessResult.from_loop
      rw [if_neg (by decide), if_neg (by decide), if_pos (Or.inr rfl)]
      exact hstep _ (hset 2 (by decide) h)

/-! ## Decoding the text form -/

theorem verdict_cases (c : Char) :
    ((c = '1' ∨ c = '-') ∧ verdict c = some 0) ∨
    (¬ (c = '1' ∨ c = '-') ∧ (c = '2' ∨ c = 'm') ∧ verdict c = some 1) ∨
    (¬ (c = '1' ∨ c = '-') ∧ ¬ (c = '2' ∨ c = 'm') ∧ (c = '3' ∨ c = 'C') ∧
      verdict c = some 2) ∨
    (¬ (c = '1' ∨ c = '-') ∧ ¬ (c = '2' ∨ c = 'm') ∧ ¬ (c = '3' ∨ c = 'C') ∧
      verdict c = none) := by
  unfold verdict
  by_cases h1 : c = '-' ∨ c = '1'
  · left
    rw [if_pos h1]
    exact ⟨h1.symm, rfl⟩
  · right
    have h1b : ¬ (c = '1' ∨ c = '-') := fun h => h1 h.symm
    rw [if_neg h1]
    by_cases h2 : c = 'm' ∨ c = '2'
    · left
      rw [if_pos h2]
      exact ⟨h1b, h2.symm, rfl⟩
    · right
      have h2b : ¬ (c = '2' ∨ c = 'm') := fun h => h2 h.symm
      rw [if_neg h2]
      by_cases h3 : c = 'C' ∨ c = '3'
      · left
        rw [if_pos h3]
        exact ⟨h1b, h2b, h3.symm, rfl⟩
      · right
        rw [if_neg h3]
        exact ⟨h1b, h2b, fun h => h3 h.symm, rfl⟩

theorem verdict_none_iff (c : Char) :
    verdict c = none ↔ c ∉ ['-', '1', 'm', '2', 'C', '3'] := by
  simp only [List.mem_cons, List.mem_singleton, List.not_mem_nil, or_false]
  rcases verdict_cases c with ⟨h1, h2⟩ | ⟨h1, h2, h3⟩ | ⟨h1, h2, h3, h4⟩ | ⟨h1, h2, h3, h4⟩
  · rw [h2]
    constructor
    · intro h; cases h
    · intro h; exfalso; apply h; tauto
  · rw [h3]
    constructor
    · intro h; cases h
    · intro h; exfalso; apply h; tauto
  · rw [h4]
    constructor
    · intro h; cases h
    · intro h; exfalso; apply h; tauto
  · rw [h4]
    constructor
    · intro _; tauto
    · intro _; trivial

theorem symbol_le (c : Char) : symbol c ≤ 2 := by
  unfold symbol
  rcases verdict_cases c with ⟨_, h⟩ | ⟨_, _, h⟩ | ⟨_, _, _, h⟩ | ⟨_, _, _, h⟩ <;>
    rw [h] <;> decide

theorem from_loop_invalid (str : List Char) :
    ∀ (i : Nat) (r : GuessResult), (∃ c ∈ str, verdict c = none) →
      GuessResult.from_loop str i r = GuessResult.invalid := by
  induction str with
  | nil =>
    intro i r h
    obtain ⟨c, hc, _⟩ := h
    cases hc
  | cons ch str ih =>
    intro i r h
    have hrest : verdict ch ≠ none → ∃ c ∈ str, verdict c = none := by
      intro hch
      obtain ⟨c, hc, hv⟩ := h
      rcases List.mem_cons.1 hc with hc | hc
      · subst hc; exact absurd hv hch
      · exact ⟨c, hc, hv⟩
    unfold GuessResult.from_loop
    rcases verdict_cases ch with ⟨h1, h2⟩ | ⟨h1, h2, h3⟩ | ⟨h1, h2, h3, h4⟩ | ⟨h1, h2, h3, _⟩
    · rw [if_pos h1]
      exact ih _ _ (hrest (by rw [h2]; simp))
    · rw [if_neg h1, if_pos h2]
      exact ih _ _ (hrest (by rw [h3]; simp))
    · rw [if_neg h1, if_neg h2, if_pos h3]
      exact ih _ _ (hrest (by rw [h4]; simp))
    · rw [if_neg h1, if_neg h2, if_neg h3]

theorem from_loop_valid (str : List Char) :
    ∀ (i : Nat) (r : GuessResult), i + str.length ≤ 16 →
      (∀ c ∈ str, verdict c ≠ none) → (∀ j, i ≤ j → r.get j = 0) →
      ∀ j, (GuessResult.from_loop str i r).get j =
        if j < i then r.get j else (str.map symbol).getD (j - i) 0 := by
  induction str with
  | nil =>
    intro i r _ _ hr j
    unfold GuessResult.from_loop
    by_cases hj : j < i
    · rw [if_pos hj]
    · rw [if_neg hj, hr j (by omega)]; rfl
  | cons ch str ih =>
    intro i r hlen hvalid hr j
    have hlen2 : i + 1 + str.length ≤ 16 := by
      simp only [List.length_cons] at hlen
      omega
    have hvalid2 : ∀ c ∈ str, verdict c ≠ none :=
      fun c hc => hvalid c (List.mem_cons_of_mem _ hc)
    -- the code after position `i` received symbol `v`
    have hnext : ∀ (r2 : GuessResult) (v : Nat), symbol ch = v → r2.get i = v →
        (∀ k, k ≠ i → r2.get k = r.get k) →
        (GuessResult.from_loop str (i + 1) r2).get j =
          if j < i then r.get j else ((ch :: str).map symbol).getD (j - i) 0 := by
      intro r2 v hv hsame hother
      rw [ih (i + 1) r2 hlen2 hvalid2
        (fun k hk => by rw [hother k (by omega)]; exact hr k (by omega)) j]
      by_cases hj : j < i
      · rw [if_pos (by omega), if_pos hj, hother j (by omega)]
      · rw [if_neg hj]
        by_cases hji : j = i
        · subst hji
          rw [if_pos (by omega), hsame, List.map_cons, Nat.sub_self, List.getD_cons_zero, hv]
        · rw [if_neg (by omega), List.map_cons]
          have hsucc : j - i = (j - (i + 1)) + 1 := by omega
          rw [hsucc, List.getD_cons_succ]
    have hset : ∀ v, v < 4 → (r.set i v).get i = v ∧ ∀ k, k ≠ i → (r.set i v).get k = r.get k :=
      fun v hv => ⟨GuessResult.get_set_same r i v (by omega) hv (hr i (le_refl _)),
        fun k hk => GuessResult.get_set_other r i k v (by omega) hv hk⟩
    unfold GuessResult.from_loop
    rcases verdict_cases ch with ⟨h1, h2⟩ | ⟨h1, h2, h3⟩ | ⟨h1, h2, h3, h4⟩ | ⟨h1, h2, h3, h4⟩
    · rw [if_pos h1]
      exact hnext r 0 (by unfold symbol; rw [h2]; rfl) (hr i (le_refl _)) (fun _ _ => rfl)
    · rw [if_neg h1, if_pos h2]
      exact hnext _ 1 (by unfold symbol; rw [h3]; rfl) (hset 1 (by decide)).1
        (hset 1 (by decide)).2
    · rw [if_neg h1, if_neg h2, if_pos h3]
      exact hnext _ 2 (by unfold symbol; rw [h4]; rfl) (hset 2 (by decide)).1
        (hset 2 (by decide)).2
    · exact absurd h4 (hvalid ch (List.mem_cons_self _ _))

theorem to_int_of_lt (n : Nat) (h : n < 2 ^ 31) : to_int n = (n : Int) := by
  unfold to_int
  have h1 : n % 2 ^ 32 = n := Nat.mod_eq_of_lt (by omega)
  rw [h1, if_pos h]

/-- On a string shorter than `2 ^ 31` no narrowing takes place. -/
theorem from_of_lt (s : List Char) (h : s.length < 2 ^ 31) :
    GuessResult.from s =
      if s.length > GuessResult.max_length then GuessResult.invalid
      else GuessResult.from_loop s 0 ⟨0⟩ := by
  unfold GuessResult.from
  simp only [to_int_of_lt s.length h, Int.toNat_ofNat, List.take_length, Nat.cast_lt,
    gt_iff_lt]

theorem from_of_short (s : List Char) (hlen : s.length ≤ 16) :
    GuessResult.from s = GuessResult.from_loop s 0 ⟨0⟩ := by
  rw [from_of_lt s (by omega), if_neg (by
    show ¬ (s.length > 16)
    omega)]

theorem from_valid_get (s : List Char) (hlen : s.length ≤ 16)
    (hvalid : ∀ c ∈ s, verdict c ≠ none) (j : Nat) :
    (GuessResult.from s).get j = (s.map symbol).getD j 0 := by
  rw [from_of_short s hlen]
  rw [from_loop_valid s 0 ⟨0⟩ (by omega) hvalid (fun j _ => get_zero j) j]
  simp

theorem from_valid_eq_encode (s : List Char) (hlen : s.length ≤ 16)
    (hvalid : ∀ c ∈ s, verdict c ≠ none) :
    GuessResult.from s = ⟨encode (s.map symbol)⟩ := by
  apply GuessResult.ext_get
  intro j
  rw [from_valid_get s hlen hvalid j, encode_get]
  intro x hx
  obtain ⟨c, _, rfl⟩ := List.mem_map.1 hx
  have := symbol_le c
  omega

theorem invalid_get_zero : GuessResult.invalid.get 0 = 3 := by decide

theorem data_lt_of_get_zero (r : GuessResult) (L : Nat) (h : ∀ j, L ≤ j → r.get j = 0) :
    r.data < 4 ^ L := by
  have h4 : (4 : Nat) ^ L = 2 ^ (2 * L) := by rw [pow_mul]; norm_num
  rw [h4]
  apply Nat.lt_pow_two_of_testBit
  intro i hi
  have hget := GuessResult.get_testBit r (i / 2) (i % 2)
  rw [h (i / 2) (by omega), Nat.zero_testBit] at hget
  have hlt : i % 2 < 2 := Nat.mod_lt _ (by decide)
  have hi2 : 2 * (i / 2) + i % 2 = i := Nat.div_add_mod i 2
  simpa [hlt, hi2] using hget.symm

/-! ## Hash maps -/

theorem umap_update_keys {V : Type} (k : Nat) (f : V → V) (d : V) (m : List (Nat × V)) :
    (umap_update k f d m).map Prod.fst =
      if k ∈ m.map Prod.fst then m.map Prod.fst else m.map Prod.fst ++ [k] := by
  induction m with
  | nil => simp [umap_update]
  | cons e rest ih =>
    obtain ⟨k', v⟩ := e
    unfold umap_update
    by_cases hk : k' = k
    · simp [hk]
    · rw [if_neg hk, List.map_cons, ih]
      have hiff : (k ∈ List.map Prod.fst ((k', v) :: rest)) ↔ k ∈ List.map Prod.fst rest := by
        rw [List.map_cons, List.mem_cons]
        constructor
        · rintro (h | h)
          · exact absurd h.symm hk
          · exact h
        · exact Or.inr
      by_cases hin : k ∈ List.map Prod.fst rest
      · rw [if_pos hin, if_pos (hiff.2 hin)]; rfl
      · rw [if_neg hin, if_neg (fun h => hin (hiff.1 h))]; rfl

theorem umap_update_mem {V : Type} (k : Nat) (f : V → V) (d : V) (m : List (Nat × V))
    (hm : (m.map Prod.fst).Nodup) (e : Nat × V) (he : e ∈ umap_update k f d m) :
    (e.1 ≠ k ∧ e ∈ m) ∨
      (e.1 = k ∧ ((∃ v, (k, v) ∈ m ∧ e.2 = f v) ∨ (k ∉ m.map Prod.fst ∧ e.2 = f d))) := by
  induction m with
  | nil =>
    simp only [umap_update, List.mem_singleton] at he
    subst he
    right
    exact ⟨rfl, Or.inr ⟨by simp, rfl⟩⟩
  | cons e' rest ih =>
    obtain ⟨k', v⟩ := e'
    rw [List.map_cons, List.nodup_cons] at hm
    unfold umap_update at he
    by_cases hk : k' = k
    · rw [if_pos hk, List.mem_cons] at he
      rcases he with he | he
      · subst he
        right
        exact ⟨hk, Or.inl ⟨v, by rw [← hk]; exact List.mem_cons_self _ _, rfl⟩⟩
      · left
        refine ⟨fun h => hm.1 ?_, List.mem_cons_of_mem _ he⟩
        have hmem : e.1 ∈ rest.map Prod.fst := List.mem_map_of_mem _ he
        rwa [h, ← hk] at hmem
    · rw [if_neg hk, List.mem_cons] at he
      rcases he with he | he
      · subst he
        left
        exact ⟨hk, List.mem_cons_self _ _⟩
      · rcases ih hm.2 he with ⟨h1, h2⟩ | ⟨h1, ⟨v', h2, h3⟩ | ⟨h2, h3⟩⟩
        · left; exact ⟨h1, List.mem_cons_of_mem _ h2⟩
        · right; exact ⟨h1, Or.inl ⟨v', List.mem_cons_of_mem _ h2, h3⟩⟩
        · right
          refine ⟨h1, Or.inr ⟨?_, h3⟩⟩
          rw [List.map_cons, List.mem_cons]
          rintro (h | h)
          · exact hk h.symm
          · exact h2 h

theorem umap_update_sum {V : Type} (size : V → Nat) (k : Nat) (f : V → V) (d : V)
    (hf : ∀ v, size (f v) = size v + 1) (hd : size d = 0) (m : List (Nat × V)) :
    ((umap_update k f d m).map (fun e => size e.2)).sum =
      (m.map (fun e => size e.2)).sum + 1 := by
  induction m with
  | nil => simp [umap_update, hf, hd]
  | cons e rest ih =>
    obtain ⟨k', v⟩ := e
    unfold umap_update
    by_cases hk : k' = k
    · rw [if_pos hk]
      simp only [List.map_cons, List.sum_cons, hf]
      omega
    · rw [if_neg hk]
      simp only [List.map_cons, List.sum_cons, ih]
      omega

theorem umap_update_map {V W : Type} (h : V → W) (k : Nat) (f : V → V) (d : V) (f' : W → W)
    (d' : W) (hf : ∀ v, h (f v) = f' (h v)) (hd : h d = d') (m : List (Nat × V)) :
    (umap_update k f d m).map (fun e => (e.1, h e.2)) =
      umap_update k f' d' (m.map (fun e => (e.1, h e.2))) := by
  induction m with
  | nil => simp [umap_update, hf, hd]
  | cons e rest ih =>
    obtain ⟨k', v⟩ := e
    simp only [umap_update, List.map_cons]
    by_cases hk : k' = k
    · simp [hk, hf]
    · simp [hk, ih]

theorem group_by_snoc (code : Nat → Nat) (cs : List Nat) (a : Nat) :
    group_by code (cs ++ [a]) =
      umap_update (code a) (fun answers => answers ++ [a]) [] (group_by code cs) := by
  unfold group_by
  rw [List.foldl_append]
  rfl

theorem group_by_inv (code : Nat → Nat) (cs : List Nat) :
    GroupInv code cs (group_by code cs) := by
  induction cs using List.reverseRecOn with
  | nil =>
    exact ⟨List.nodup_nil, fun e he => (by cases he), fun a ha => (by cases ha), rfl⟩
  | append_singleton cs a ih =>
    rw [group_by_snoc]
    have hkeys := umap_update_keys (code a) (fun answers => answers ++ [a]) []
      (group_by code cs)
    constructor
    · rw [hkeys]
      split
      · exact ih.nodup
      · next h =>
        rw [List.nodup_append]
        refine ⟨ih.nodup, List.nodup_singleton _, ?_⟩
        intro x hx hx2
        rw [List.mem_singleton] at hx2
        exact h (hx2 ▸ hx)
    · intro e he
      rw [List.filter_append]
      rcases umap_update_mem _ _ _ _ ih.nodup e he with
        ⟨h1, h2⟩ | ⟨h1, ⟨v, h2, h3⟩ | ⟨h2, h3⟩⟩
      · obtain ⟨h4, h5⟩ := ih.mem e h2
        refine ⟨?_, h5⟩
        rw [List.filter_cons_of_neg (by simpa using Ne.symm h1)]
        simpa using h4
      · obtain ⟨h4, _⟩ := ih.mem _ h2
        refine ⟨?_, by rw [h3]; simp⟩
        rw [List.filter_cons_of_pos (by simpa using h1.symm), h3, h1]
        simp only [List.filter_nil]
        rw [← h4]
      · refine ⟨?_, by rw [h3]; simp⟩
        rw [List.filter_cons_of_pos (by simpa using h1.symm), h3, h1]
        have hnone : cs.filter (fun x => decide (code x = code a)) = [] := by
          rw [List.filter_eq_nil_iff]
          intro x hx hc
          apply h2
          have := ih.cover x hx
          rwa [of_decide_eq_true hc] at this
        rw [hnone]
        rfl
    · intro x hx
      rw [hkeys]
      rw [List.mem_append, List.mem_singleton] at hx
      split
      · next h =>
        rcases hx with hx | hx
        · exact ih.cover x hx
        · rw [hx]; exact h
      · rcases hx with hx | hx
        · exact List.mem_append_left _ (ih.cover x hx)
        · rw [hx]; exact List.mem_append_right _ (List.mem_singleton_self _)
    · rw [umap_update_sum (fun v : List Nat => v.length) (code a)
        (fun answers => answers ++ [a]) [] (by simp) (by simp), ih.total]
      simp

/-! ## Sorting -/

theorem insertion_sort_isStdSort {α : Type} :
    IsStdSort (insertion_sort : (α → α → Bool) → List α → List α) := by
  intro comp hcomp l
  obtain ⟨hirr, htrans, hneg⟩ := hcomp
  refine ⟨List.perm_insertionSort _ l, ?_⟩
  have htotal : IsTotal α (fun a b => comp b a = false) := by
    constructor
    intro a b
    by_cases h1 : comp b a = true
    · right
      by_cases h2 : comp a b = true
      · have := htrans a b a h2 h1
        rw [hirr a] at this
        cases this
      · simpa using h2
    · left
      simpa using h1
  have htr : IsTrans α (fun a b => comp b a = false) := by
    constructor
    intro a b c hab hbc
    exact hneg c b a hbc hab
  exact @List.sorted_insertionSort α (fun a b => comp b a = false) _ htotal htr l

theorem reverse_insertion_sort_isStdSort {α : Type} :
    IsStdSort (reverse_insertion_sort : (α → α → Bool) → List α → List α) := by
  intro comp hcomp l
  obtain ⟨h1, h2⟩ := insertion_sort_isStdSort comp hcomp l.reverse
  exact ⟨h1.trans (List.reverse_perm l), h2⟩

theorem isIterationOrder_id {α : Type} : IsIterationOrder (fun l : List α => l) :=
  fun l => List.Perm.refl l

theorem isIterationOrder_reverse {α : Type} : IsIterationOrder (List.reverse : List α → List α) :=
  fun l => List.reverse_perm l

theorem strictWeak_assess_comp : StrictWeak WordleState.assess_comp := by
  refine ⟨?_, ?_, ?_⟩
  · intro a
    simp [WordleState.assess_comp]
  · intro a b c
    simp only [WordleState.assess_comp]
    split <;> split <;> split <;> simp only [decide_eq_true_eq] <;> omega
  · intro a b c
    simp only [WordleState.assess_comp]
    split <;> split <;> split <;> simp only [decide_eq_false_iff_not] <;> omega

theorem strictWeak_choice_comp {F : Type} (ar : Arith F) (h : StrictWeak ar.gt) :
    StrictWeak (WordleState.choice_comp ar) := by
  obtain ⟨h1, h2, h3⟩ := h
  exact ⟨fun a => h1 _, fun a b c => h2 _ _ _, fun a b c => h3 _ _ _⟩

/-! ## The assessor -/

/-- The code of answer `a` against `guess`, as a hash key. -/
theorem assess_map_eq {F : Type} (st : WordleState F) (guess : List Char) :
    st.assess_map guess =
      group_by (fun a => (match_word st.wordle.word_len (st.wordle.answer_dict.get a)
        (data guess)).data) st.candidates := rfl

theorem assess_cases_eq {F : Type} (ar : Arith F)
    (iter : List (Nat × List Nat) → List (Nat × List Nat))
    (sort : (Nat × List Nat → Nat × List Nat → Bool) → List (Nat × List Nat) →
      List (Nat × List Nat))
    (st : WordleState F) (guess : List Char) :
    (st.assess ar iter sort guess).cases =
      (sort WordleState.assess_comp (iter (st.assess_map guess))).map
        (fun it => ⟨⟨it.1⟩, it.2⟩) := rfl

theorem assess_entries_perm {F : Type}
    (iter : List (Nat × List Nat) → List (Nat × List Nat))
    (sort : (Nat × List Nat → Nat × List Nat → Bool) → List (Nat × List Nat) →
      List (Nat × List Nat))
    (hiter : IsIterationOrder iter) (hsort : IsStdSort sort)
    (st : WordleState F) (guess : List Char) :
    (sort WordleState.assess_comp (iter (st.assess_map guess))).Perm (st.assess_map guess) :=
  ((hsort _ strictWeak_assess_comp _).1).trans (hiter _)

theorem filter_code_eq (f : Nat → GuessResult) (k : Nat) (cs : List Nat) :
    cs.filter (fun a => decide ((f a).data = k)) = cs.filter (fun a => decide (f a = ⟨k⟩)) := by
  congr 1
  funext a
  cases hfa : f a with | mk x =>
  simp

theorem assess_comp_iff (a b : Nat × List Nat) :
    WordleState.assess_comp a b = true ↔
      (a.2.length > b.2.length ∨ (a.2.length = b.2.length ∧ a.1 < b.1)) := by
  unfold WordleState.assess_comp
  split <;> simp only [decide_eq_true_eq] <;> omega

/-- Entries with distinct keys come out of the sort strictly ordered. -/
theorem assess_sorted {F : Type}
    (iter : List (Nat × List Nat) → List (Nat × List Nat))
    (sort : (Nat × List Nat → Nat × List Nat → Bool) → List (Nat × List Nat) →
      List (Nat × List Nat))
    (hiter : IsIterationOrder iter) (hsort : IsStdSort sort)
    (st : WordleState F) (guess : List Char) :
    (sort WordleState.assess_comp (iter (st.assess_map guess))).Pairwise
      (fun x y => WordleState.assess_comp x y = true) := by
  have hperm := assess_entries_perm iter sort hiter hsort st guess
  have inv := group_by_inv (fun a => (match_word st.wordle.word_len
    (st.wordle.answer_dict.get a) (data guess)).data) st.candidates
  rw [← assess_map_eq] at inv
  have hnodup : ((sort WordleState.assess_comp (iter (st.assess_map guess))).map
      Prod.fst).Nodup := (hperm.map Prod.fst).nodup_iff.2 inv.nodup
  have hkeys : (sort WordleState.assess_comp (iter (st.assess_map guess))).Pairwise
      (fun x y => x.1 ≠ y.1) := by
    unfold List.Nodup at hnodup
    rw [List.pairwise_map] at hnodup
    exact hnodup
  have hsorted := (hsort _ strictWeak_assess_comp (iter (st.assess_map guess))).2
  refine (hkeys.and hsorted).imp ?_
  intro x y hxy
  obtain ⟨hne, hle⟩ := hxy
  rw [assess_comp_iff]
  have hnot : ¬ (WordleState.assess_comp y x = true) := by rw [hle]; simp
  rw [assess_comp_iff] at hnot
  omega

/-! ## The ranker -/

theorem foldl_push {α β : Type} (f : α → β) (l : List α) (init : List β) :
    l.foldl (fun acc i => acc ++ [f i]) init = init ++ l.map f := by
  induction l generalizing init with
  | nil => simp
  | cons a l ih => rw [List.foldl_cons, ih]; simp

theorem foldl_add_sum {F α : Type} [Field F] (g : α → F) (l : List α) (z : F) :
    l.foldl (fun t x => t + g x) z = z + (l.map g).sum := by
  induction l generalizing z with
  | nil => simp
  | cons a l ih => rw [List.foldl_cons, ih]; simp [add_assoc]

theorem count_fold_eq (code : Nat → Nat) (cs : List Nat) (m : List (Nat × List Nat)) :
    cs.foldl (fun counts a => umap_update (code a) (fun count => count + 1) 0 counts)
        (m.map (fun e => (e.1, e.2.length))) =
      (cs.foldl (fun map a => umap_update (code a) (fun answers => answers ++ [a]) [] map)
        m).map (fun e => (e.1, e.2.length)) := by
  induction cs generalizing m with
  | nil => rfl
  | cons a cs ih =>
    rw [List.foldl_cons, List.foldl_cons, ← ih]
    congr 1
    exact (umap_update_map List.length (code a) (fun answers => answers ++ [a]) []
      (fun count => count + 1) 0 (by simp) rfl m).symm

theorem count_map_eq {F : Type} (st : WordleState F) (guess : CStr) :
    st.count_map guess =
      (group_by (fun a => (match_word st.wordle.word_len (st.wordle.answer_dict.get a)
        guess).data) st.candidates).map (fun e => (e.1, e.2.length)) :=
  count_fold_eq _ st.candidates []

theorem group_keys_perm (code : Nat → Nat) (cs : List Nat) :
    ((group_by code cs).map Prod.fst).Perm (cs.map code).dedup := by
  have inv := group_by_inv code cs
  rw [List.perm_ext_iff_of_nodup inv.nodup (List.nodup_dedup _)]
  intro k
  rw [List.mem_dedup]
  constructor
  · intro hk
    obtain ⟨e, he, rfl⟩ := List.mem_map.1 hk
    obtain ⟨h1, h2⟩ := inv.mem e he
    obtain ⟨a, ha⟩ := List.exists_mem_of_ne_nil _ h2
    rw [h1, List.mem_filter] at ha
    exact List.mem_map.2 ⟨a, ha.1, of_decide_eq_true ha.2⟩
  · intro hk
    obtain ⟨a, ha, rfl⟩ := List.mem_map.1 hk
    exact inv.cover a ha

theorem group_size_eq_count (code : Nat → Nat) (cs : List Nat) (e : Nat × List Nat)
    (he : e ∈ group_by code cs) : e.2.length = (cs.map code).count e.1 := by
  rw [((group_by_inv code cs).mem e he).1, List.count, List.countP_map,
    List.countP_eq_length_filter]
  congr 1

theorem guess_entropy_def {F : Type} (ar : Arith F)
    (iter : List (Nat × Nat) → List (Nat × Nat)) (st : WordleState F) (i : Nat) :
    WordleState.guess_entropy ar iter st i =
      entropy_of_counts ar (iter (st.count_map (st.wordle.full_dict.get i)))
        st.candidates.length := rfl

/-- The hash map of `calculate` holds, for each distinct code, the number of
candidates that yield it. -/
theorem count_map_perm {F : Type} (st : WordleState F) (guess : CStr) :
    (st.count_map guess).Perm
      (code_counts (st.candidates.map (fun a =>
        (match_word st.wordle.word_len (st.wordle.answer_dict.get a) guess).data))) := by
  rw [count_map_eq]
  unfold code_counts
  have hkeys := group_keys_perm (fun a =>
    (match_word st.wordle.word_len (st.wordle.answer_dict.get a) guess).data) st.candidates
  have hmap : (group_by (fun a =>
      (match_word st.wordle.word_len (st.wordle.answer_dict.get a) guess).data)
      st.candidates).map (fun e => (e.1, e.2.length)) =
      ((group_by (fun a =>
        (match_word st.wordle.word_len (st.wordle.answer_dict.get a) guess).data)
        st.candidates).map Prod.fst).map (fun k => (k, (st.candidates.map (fun a =>
          (match_word st.wordle.word_len (st.wordle.answer_dict.get a) guess).data)).count
            k)) := by
    rw [List.map_map]
    apply List.map_congr_left
    intro e he
    simp only [Function.comp]
    rw [group_size_eq_count _ _ e he]
  rw [hmap]
  exact hkeys.map _

theorem calculate_choices {F : Type} (ar : Arith F)
    (iter : List (Nat × Nat) → List (Nat × Nat))
    (sort : (GuessChoice F → GuessChoice F → Bool) → List (GuessChoice F) →
      List (GuessChoice F))
    (st : WordleState F) (hcalc : st.calculated = false) :
    (st.calculate ar iter sort).choices =
      sort (WordleState.choice_comp ar)
        (st.choices ++ (List.range st.wordle.full_dict.size).map
          (fun i => ⟨i, ar.ofInt (-1), WordleState.guess_entropy ar iter st i⟩)) := by
  unfold WordleState.calculate
  rw [hcalc]
  simp only [Bool.false_eq_true, if_false]
  rw [foldl_push]

theorem strictWeak_decide_gt {F : Type} [LinearOrder F] :
    StrictWeak (fun x y : F => decide (x > y)) := by
  refine ⟨?_, ?_, ?_⟩
  · intro a
    simp
  · intro a b c hab hbc
    simp only [decide_eq_true_eq] at hab hbc ⊢
    exact lt_trans hbc hab
  · intro a b c hab hbc
    simp only [decide_eq_false_iff_not, not_lt, gt_iff_lt] at hab hbc ⊢
    exact le_trans hab hbc

/-! ## The entropy that `assess` returns -/

theorem scan_guess_congr (guess guess2 : CStr) (c : Char) (js : List Nat) (r : GuessResult)
    (h : ∀ j ∈ js, guess j = guess2 j) :
    scan_guess guess c js r = scan_guess guess2 c js r := by
  induction js with
  | nil => rfl
  | cons j js ih =>
    unfold scan_guess
    rw [h j (List.mem_cons_self _ _), ih (fun x hx => h x (List.mem_cons_of_mem _ hx))]

/-- The code depends on the first `L` letters of the guess only. -/
theorem match_word_congr (L : Nat) (answer guess guess2 : CStr)
    (h : ∀ i, i < L → guess i = guess2 i) :
    match_word L answer guess = match_word L answer guess2 := by
  have hfirst : first_pass L answer guess = first_pass L answer guess2 := by
    unfold first_pass
    apply List.foldl_ext
    intro r i hi
    rw [h i (List.mem_range.1 hi)]
  unfold match_word
  rw [hfirst]
  apply List.foldl_ext
  intro r i hi
  unfold claim_slot
  rw [h i (List.mem_range.1 hi),
    scan_guess_congr guess guess2 (answer i) (List.range L) r
      (fun j hj => h j (List.mem_range.1 hj))]

theorem data_get_str (d : Dict) (index i : Nat) (hi : i < d.word_len) :
    data (d.get_str index) i = d.get index i := by
  unfold data Dict.get_str
  rw [List.getD_eq_getElem _ _ (by rw [List.length_map, List.length_range]; exact hi)]
  simp

/-- With any arithmetic, exact or not: when the two hash maps hand out their
keys in the same order, `assess` returns for the word of guess `i` the very
value that `calculate` computes for guess `i`. -/
theorem assess_entropy_eq_guess_entropy {F : Type} (ar : Arith F)
    (iter_c : List (Nat × Nat) → List (Nat × Nat))
    (iter_g : List (Nat × List Nat) → List (Nat × List Nat))
    (sort_g : (Nat × List Nat → Nat × List Nat → Bool) → List (Nat × List Nat) →
      List (Nat × List Nat))
    (st : WordleState F) (i : Nat)
    (hsame : ∀ m, iter_c (m.map (fun e => (e.1, e.2.length))) =
      (iter_g m).map (fun e => (e.1, e.2.length)))
    (hlen : st.wordle.full_dict.word_len = st.wordle.word_len) :
    (st.assess ar iter_g sort_g (st.wordle.full_dict.get_str i)).entropy =
      WordleState.guess_entropy ar iter_c st i := by
  have hcode : (fun a => (match_word st.wordle.word_len (st.wordle.answer_dict.get a)
      (data (st.wordle.full_dict.get_str i))).data) =
      (fun a => (match_word st.wordle.word_len (st.wordle.answer_dict.get a)
        (st.wordle.full_dict.get i)).data) := by
    funext a
    rw [match_word_congr _ _ _ (st.wordle.full_dict.get i)
      (fun j hj => data_get_str _ _ _ (by rw [hlen]; exact hj))]
  unfold WordleState.assess WordleState.guess_entropy
  simp only
  rw [count_map_eq, assess_map_eq, hcode, hsame, List.foldl_map]

/-! ## Bounds on the entropy, over the real numbers -/

theorem calculate_fresh {F : Type} (ar : Arith F)
    (iter : List (Nat × Nat) → List (Nat × Nat))
    (sort : (GuessChoice F → GuessChoice F → Bool) → List (GuessChoice F) →
      List (GuessChoice F))
    (st : WordleState F) (hcalc : st.calculated = false) :
    (st.calculate ar iter sort).wordle = st.wordle ∧
      (st.calculate ar iter sort).candidates = st.candidates ∧
      (st.calculate ar iter sort).calculated = true := by
  unfold WordleState.calculate
  rw [hcalc]
  exact ⟨rfl, rfl, rfl⟩

theorem calculate_cached {F : Type} (ar : Arith F)
    (iter : List (Nat × Nat) → List (Nat × Nat))
    (sort : (GuessChoice F → GuessChoice F → Bool) → List (GuessChoice F) →
      List (GuessChoice F))
    (st : WordleState F) (hcalc : st.calculated = true) :
    st.calculate ar iter sort = st := by
  unfold WordleState.calculate
  rw [hcalc]
  rfl

theorem reset_calculations_of_fresh {F : Type} (st : WordleState F)
    (hcalc : st.calculated = false) (hchoices : st.choices = []) :
    st.reset_calculations = st := by
  cases st with
  | mk wordle candidates choices calculated =>
    simp only at hcalc hchoices
    subst hcalc
    subst hchoices
    rfl

theorem calculate_length {F : Type} (ar : Arith F)
    (iter : List (Nat × Nat) → List (Nat × Nat))
    (sort : (GuessChoice F → GuessChoice F → Bool) → List (GuessChoice F) →
      List (GuessChoice F))
    (st : WordleState F) (hsort : IsStdSort sort) (hgt : StrictWeak ar.gt)
    (hcalc : st.calculated = false) (hchoices : st.choices = []) :
    (st.calculate ar iter sort).choices.length = st.wordle.full_dict.size := by
  rw [calculate_choices ar iter sort st hcalc, hchoices, List.nil_append,
    ((hsort _ (strictWeak_choice_comp ar hgt) _).1).length_eq, List.length_map,
    List.length_range]

theorem cacheInv_of_fresh {F : Type} (ar : Arith F)
    (iter : List (Nat × Nat) → List (Nat × Nat))
    (sort : (GuessChoice F → GuessChoice F → Bool) → List (GuessChoice F) →
      List (GuessChoice F))
    (st : WordleState F) (hcalc : st.calculated = false) (hchoices : st.choices = []) :
    CacheInv ar iter sort st := by
  constructor
  · intro _; exact hchoices
  · intro h; rw [hcalc] at h; cases h

theorem cacheInv_step {F : Type} (ar : Arith F)
    (iter : List (Nat × Nat) → List (Nat × Nat))
    (sort : (GuessChoice F → GuessChoice F → Bool) → List (GuessChoice F) →
      List (GuessChoice F))
    (hsort : IsStdSort sort) (hgt : StrictWeak ar.gt)
    (st : WordleState F) (op : SessionOp) (inv : CacheInv ar iter sort st) :
    CacheInv ar iter sort (st.step ar iter sort op) := by
  cases op with
  | reset => exact cacheInv_of_fresh ar iter sort _ rfl rfl
  | filter guess result =>
    show CacheInv ar iter sort (st.filter guess result)
    by_cases h : ∃ a ∈ st.candidates, WordleState.mismatch st.wordle guess result a = true
    · obtain ⟨h1, h2⟩ := filter_clears st guess result h
      exact cacheInv_of_fresh ar iter sort _ h2 h1
    · have hall : ∀ a ∈ st.candidates,
          WordleState.mismatch st.wordle guess result a = false := by
        intro a ha
        by_contra hm
        exact h ⟨a, ha, by simpa using hm⟩
      rw [filter_noop st guess result hall]
      exact inv
  | calculate =>
    show CacheInv ar iter sort (st.calculate ar iter sort)
    by_cases hcalc : st.calculated = true
    · rw [calculate_cached ar iter sort st hcalc]
      exact inv
    · have hcalc : st.calculated = false := by simpa using hcalc
      have hchoices := inv.1 hcalc
      obtain ⟨hw, hc, hflag⟩ := calculate_fresh ar iter sort st hcalc
      constructor
      · intro h; rw [hflag] at h; cases h
      · intro _
        refine ⟨?_, ?_⟩
        · rw [hw]
          exact calculate_length ar iter sort st hsort hgt hcalc hchoices
        · have hback : (st.calculate ar iter sort).reset_calculations = st := by
            have h1 : (st.calculate ar iter sort).reset_calculations =
                ⟨(st.calculate ar iter sort).wordle, (st.calculate ar iter sort).candidates,
                  [], false⟩ := rfl
            rw [h1, hw, hc]
            cases st with
            | mk wordle candidates choices calculated =>
              simp only at hcalc hchoices
              subst hcalc
              subst hchoices
              rfl
          rw [hback]

theorem cacheInv_run {F : Type} (ar : Arith F)
    (iter : List (Nat × Nat) → List (Nat × Nat))
    (sort : (GuessChoice F → GuessChoice F → Bool) → List (GuessChoice F) →
      List (GuessChoice F))
    (hsort : IsStdSort sort) (hgt : StrictWeak ar.gt) (ops : List SessionOp)
    (st : WordleState F) (inv : CacheInv ar iter sort st) :
    CacheInv ar iter sort (st.run ar iter sort ops) := by
  induction ops generalizing st with
  | nil => exact inv
  | cons op ops ih => exact ih _ (cacheInv_step ar iter sort hsort hgt st op inv)

theorem step_wordle {F : Type} (ar : Arith F)
    (iter : List (Nat × Nat) → List (Nat × Nat))
    (sort : (GuessChoice F → GuessChoice F → Bool) → List (GuessChoice F) →
      List (GuessChoice F))
    (st : WordleState F) (op : SessionOp) : (st.step ar iter sort op).wordle = st.wordle := by
  cases op with
  | reset => rfl
  | filter guess result => exact filter_wordle st guess result
  | calculate =>
    show (st.calculate ar iter sort).wordle = st.wordle
    unfold WordleState.calculate
    split <;> rfl

theorem run_wordle {F : Type} (ar : Arith F)
    (iter : List (Nat × Nat) → List (Nat × Nat))
    (sort : (GuessChoice F → GuessChoice F → Bool) → List (GuessChoice F) →
      List (GuessChoice F))
    (ops : List SessionOp) (st : WordleState F) :
    (st.run ar iter sort ops).wordle = st.wordle := by
  induction ops generalizing st with
  | nil => rfl
  | cons op ops ih =>
    have h := ih (st.step ar iter sort op)
    rw [step_wordle] at h
    exact h

/-! ## The matcher -/

/-- C2: for `L ≤ 16`, `match_word` marks position `i < L` correct exactly when
`guess[i] == answer[i]`; the second pass neither creates nor removes a correct
mark; and the result is the all-correct code of length `L` exactly when the
guess equals the answer on all `L` positions. -/
theorem match_word_correct_iff (L : Nat) (answer guess : CStr)
    (hL : L ≤ GuessResult.max_length) :
    (∀ i, i < L →
      ((match_word L answer guess).get i = GuessResult.correct ↔ guess i = answer i)) ∧
    (∀ i, (first_pass L answer guess).get i = GuessResult.correct ↔
      (match_word L answer guess).get i = GuessResult.correct) ∧
    (match_word L answer guess = ⟨encode (List.replicate L GuessResult.correct)⟩ ↔
      ∀ i, i < L → guess i = answer i) := by
  have hL16 : L ≤ 16 := hL
  have inv := match_word_inv L answer guess hL16
  have inv1 := first_pass_inv L answer guess hL16
  have henc : ∀ j, (GuessResult.mk (encode (List.replicate L GuessResult.correct))).get j =
      if j < L then 2 else 0 := by
    intro j
    rw [encode_get _ (by
      intro s hs
      rw [List.eq_of_mem_replicate hs]
      decide), replicate_getD]
    rfl
  refine ⟨?_, ?_, ?_⟩
  · intro i hi
    rw [show GuessResult.correct = 2 from rfl, inv.corr i]
    exact ⟨fun h => h.2, fun h => ⟨hi, h⟩⟩
  · intro i
    rw [show GuessResult.correct = 2 from rfl, inv.corr i, inv1.corr i]
  · constructor
    · intro h i hi
      have h2 : (match_word L answer guess).get i = 2 := by
        rw [h, henc i, if_pos hi]
      exact ((inv.corr i).1 h2).2
    · intro h
      apply GuessResult.ext_get
      intro j
      rw [henc j]
      by_cases hj : j < L
      · rw [if_pos hj]
        exact (inv.corr j).2 ⟨hj, h j hj⟩
      · rw [if_neg hj]
        exact inv.out j (by omega)

theorem match_word_correct_iff_witness :
    (5 ≤ GuessResult.max_length) ∧
    ((∀ i, i < 5 →
      ((match_word 5 (data "CRANE".toList) (data "TRACE".toList)).get i = GuessResult.correct ↔
        data "TRACE".toList i = data "CRANE".toList i)) ∧
    (∀ i, (first_pass 5 (data "CRANE".toList) (data "TRACE".toList)).get i =
        GuessResult.correct ↔
      (match_word 5 (data "CRANE".toList) (data "TRACE".toList)).get i =
        GuessResult.correct) ∧
    (match_word 5 (data "CRANE".toList) (data "TRACE".toList) =
        ⟨encode (List.replicate 5 GuessResult.correct)⟩ ↔
      ∀ i, i < 5 → data "TRACE".toList i = data "CRANE".toList i)) :=
  ⟨by decide, match_word_correct_iff 5 (data "CRANE".toList) (data "TRACE".toList) (by decide)⟩

/-- C3: for `L ≤ 16` and every letter `c`, the number of guess positions below
`L` that hold `c` and are marked misplaced or correct is the minimum of the
number of occurrences of `c` in the answer and in the guess, hence at most the
former; and answer "CRANE" with guess "TRACE" gives the code written "-CCmC". -/
theorem match_word_claim_once (L : Nat) (answer guess : CStr) (c : Char)
    (hL : L ≤ GuessResult.max_length) :
    ((List.range L).countP (fun j => decide (guess j = c ∧
        ((match_word L answer guess).get j = GuessResult.misplaced ∨
          (match_word L answer guess).get j = GuessResult.correct))) =
      min ((List.range L).countP (fun i => decide (answer i = c)))
        ((List.range L).countP (fun j => decide (guess j = c)))) ∧
    ((List.range L).countP (fun j => decide (guess j = c ∧
        ((match_word L answer guess).get j = GuessResult.misplaced ∨
          (match_word L answer guess).get j = GuessResult.correct))) ≤
      (List.range L).countP (fun i => decide (answer i = c))) ∧
    (match_word 5 (data "CRANE".toList) (data "TRACE".toList)).to_str 5 = "-CCmC".toList := by
  have hL16 : L ≤ 16 := hL
  have hmain := @foldl_claim_count L answer guess hL16 c L
  have inv := hmain.1
  have hcnt := hmain.2
  change MatchInv L answer guess (match_word L answer guess) at inv
  change misCount L guess (match_word L answer guess) c = _ at hcnt
  set r := match_word L answer guess with hr
  -- exact hits on letter `c`
  set green := (List.range L).countP (fun j => decide (guess j = c ∧ guess j = answer j))
    with hgreen
  have hmarks : (List.range L).countP (fun j => decide (guess j = c ∧
      (r.get j = GuessResult.misplaced ∨ r.get j = GuessResult.correct))) =
      green + misCount L guess r c := by
    rw [countP_split _ _ (fun j => decide (guess j = answer j))]
    congr 1
    · apply List.countP_congr
      intro x hx
      have hxL := List.mem_range.1 hx
      simp only [Bool.and_eq_true, decide_eq_true_eq]
      constructor
      · rintro ⟨⟨h1, _⟩, h2⟩; exact ⟨h1, h2⟩
      · rintro ⟨h1, h2⟩
        exact ⟨⟨h1, Or.inr ((inv.corr x).2 ⟨hxL, h2⟩)⟩, h2⟩
    · unfold misCount
      apply List.countP_congr
      intro x hx
      simp only [Bool.and_eq_true, decide_eq_true_eq, Bool.not_eq_true', decide_eq_false_iff_not]
      constructor
      · rintro ⟨⟨h1, h2 | h2⟩, h3⟩
        · exact ⟨h1, h2⟩
        · exact absurd ((inv.corr x).1 h2).2 h3
      · rintro ⟨h1, h2⟩
        refine ⟨⟨h1, Or.inl h2⟩, fun hg => ?_⟩
        have := (inv.corr x).2 ⟨List.mem_range.1 hx, hg⟩
        have h2 : r.get x = 1 := h2
        omega
  have hk : (List.range L).countP (fun i => decide (answer i = c)) =
      green + freeLetters L answer guess c := by
    rw [countP_split _ _ (fun j => decide (guess j = answer j))]
    congr 1
    · apply List.countP_congr
      intro x _
      simp only [Bool.and_eq_true, decide_eq_true_eq]
      constructor
      · rintro ⟨h1, h2⟩; exact ⟨h2.trans h1, h2⟩
      · rintro ⟨h1, h2⟩; exact ⟨h2.symm.trans h1, h2⟩
    · unfold freeLetters
      apply List.countP_congr
      intro x _
      simp
  have hm : (List.range L).countP (fun j => decide (guess j = c)) =
      green + freeSlots L answer guess c := by
    rw [countP_split _ _ (fun j => decide (guess j = answer j))]
    congr 1
    · apply List.countP_congr
      intro x _
      simp
    · unfold freeSlots
      apply List.countP_congr
      intro x _
      simp
  refine ⟨?_, ?_, by decide⟩
  · rw [hmarks, hk, hm, hcnt]; omega
  · rw [hmarks, hk, hcnt]; omega

theorem match_word_claim_once_witness :
    (5 ≤ GuessResult.max_length) ∧
    (((List.range 5).countP (fun j => decide (data "SPEED".toList j = 'E' ∧
        ((match_word 5 (data "ABIDE".toList) (data "SPEED".toList)).get j =
            GuessResult.misplaced ∨
          (match_word 5 (data "ABIDE".toList) (data "SPEED".toList)).get j =
            GuessResult.correct))) =
      min ((List.range 5).countP (fun i => decide (data "ABIDE".toList i = 'E')))
        ((List.range 5).countP (fun j => decide (data "SPEED".toList j = 'E')))) ∧
    ((List.range 5).countP (fun j => decide (data "SPEED".toList j = 'E' ∧
        ((match_word 5 (data "ABIDE".toList) (data "SPEED".toList)).get j =
            GuessResult.misplaced ∨
          (match_word 5 (data "ABIDE".toList) (data "SPEED".toList)).get j =
            GuessResult.correct))) ≤
      (List.range 5).countP (fun i => decide (data "ABIDE".toList i = 'E'))) ∧
    (match_word 5 (data "CRANE".toList) (data "TRACE".toList)).to_str 5 = "-CCmC".toList) :=
  ⟨by decide, match_word_claim_once 5 (data "ABIDE".toList) (data "SPEED".toList) 'E'
    (by decide)⟩

/-- C4: leftmost claiming. For `L ≤ 16` and positions `j1 < j2 < L` holding the
same guess letter, where `j1` is not an exact hit, if `match_word` marks `j2`
misplaced then it marks `j1` misplaced as well. -/
theorem match_word_leftmost (L : Nat) (answer guess : CStr) (j1 j2 : Nat)
    (hL : L ≤ GuessResult.max_length) (h12 : j1 < j2) (h2 : j2 < L)
    (hsame : guess j1 = guess j2) (hne : guess j1 ≠ answer j1)
    (hmis : (match_word L answer guess).get j2 = GuessResult.misplaced) :
    (match_word L answer guess).get j1 = GuessResult.misplaced :=
  (match_word_inv L answer guess hL).left j1 j2 h12 h2 hsame hne hmis

theorem match_word_leftmost_witness :
    (5 ≤ GuessResult.max_length ∧ 3 < 4 ∧ 4 < 5 ∧
      data "XXAEE".toList 3 = data "XXAEE".toList 4 ∧
      data "XXAEE".toList 3 ≠ data "EEXXX".toList 3 ∧
      (match_word 5 (data "EEXXX".toList) (data "XXAEE".toList)).get 4 =
        GuessResult.misplaced) ∧
    (match_word 5 (data "EEXXX".toList) (data "XXAEE".toList)).get 3 =
      GuessResult.misplaced :=
  ⟨⟨by decide, by decide, by decide, by decide, by decide, by decide⟩,
    match_word_leftmost 5 (data "EEXXX".toList) (data "XXAEE".toList) 3 4
      (by decide) (by decide) (by decide) (by decide) (by decide) (by decide)⟩

/-! ## The candidate list -/

/-- C1: `WordleState::filter` leaves in `candidates` the previous candidates
whose code against the guess equals the observed code, in their previous order,
and nothing else; so `candidate_count()` never grows. This holds for every
word length and guess, in particular for guesses of the session length
`L ≤ 16`. -/
theorem filter_keeps_matching {F : Type} (st : WordleState F) (guess : List Char)
    (observed : GuessResult) :
    (st.filter guess observed).candidates =
        st.candidates.filter (fun a =>
          decide (match_word st.wordle.word_len (st.wordle.answer_dict.get a) (data guess) =
            observed)) ∧
      (st.filter guess observed).candidates.Sublist st.candidates ∧
      (st.filter guess observed).candidate_count ≤ st.candidate_count := by
  have h := filter_candidates st guess observed
  refine ⟨h, ?_, ?_⟩
  · rw [h]; exact List.filter_sublist _
  · unfold WordleState.candidate_count
    rw [h]; exact List.length_filter_le _ _

/-- C5: after `reset()` and any finite run of `filter` calls, `candidates` is
the strictly ascending list of exactly the answer ids below the corpus size
whose code against every guess of the run equals the code observed for it; in
particular every candidate is an id of the answer corpus. -/
theorem candidates_after_filters {F : Type} (st : WordleState F)
    (rounds : List (List Char × GuessResult)) :
    (st.reset.filter_all rounds).candidates =
        (List.range st.wordle.answer_dict.size).filter (consistent st.wordle rounds) ∧
      (st.reset.filter_all rounds).candidates.Pairwise (fun a b => a < b) ∧
      (∀ a, a ∈ (st.reset.filter_all rounds).candidates ↔
        a < st.wordle.answer_dict.size ∧
          ∀ round ∈ rounds,
            match_word st.wordle.word_len (st.wordle.answer_dict.get a) (data round.1) =
              round.2) := by
  have h := (filter_all_spec rounds st.reset).2
  rw [reset_candidates] at h
  have hw : st.reset.wordle = st.wordle := rfl
  rw [hw] at h
  refine ⟨h, ?_, ?_⟩
  · rw [h]
    exact (List.pairwise_lt_range _).sublist (List.filter_sublist _)
  · intro a
    rw [h, List.mem_filter, List.mem_range]
    simp only [consistent, List.all_eq_true, decide_eq_true_eq]

/-! ## The text form -/

/-- C10: text round trip. For `len ≤ 16` and a code whose symbols at positions
below `len` are absent, misplaced or correct and whose symbols at positions
from `len` on are zero, `GuessResult::from(code.to_str(len)) == code`. -/
theorem from_to_str (code : GuessResult) (len : Nat) (hlen : len ≤ GuessResult.max_length)
    (hsym : ∀ i, i < len → code.get i = GuessResult.absent ∨
      code.get i = GuessResult.misplaced ∨ code.get i = GuessResult.correct)
    (hzero : ∀ i, len ≤ i → code.get i = 0) :
    GuessResult.from (code.to_str len) = code := by
  have hlen16 : len ≤ 16 := hlen
  have hlength : (code.to_str len).length = len := by simp [GuessResult.to_str]
  rw [from_of_short _ (by rw [hlength]; exact hlen16)]
  apply GuessResult.ext_get
  intro j
  unfold GuessResult.to_str
  rw [List.range_eq_range']
  rw [from_loop_to_str code len 0 ⟨0⟩ (by omega)
    (fun i hi => by
      rcases hsym i (by omega) with h | h | h <;> rw [h] <;> decide)
    (fun j => by rw [get_zero]; simp) j]
  by_cases hj : j < len
  · rw [if_pos (by omega)]
  · rw [if_neg (by omega), hzero j (by omega)]

theorem from_to_str_witness :
    (5 ≤ GuessResult.max_length ∧
      (∀ i, i < 5 → (GuessResult.mk 616).get i = GuessResult.absent ∨
        (GuessResult.mk 616).get i = GuessResult.misplaced ∨
        (GuessResult.mk 616).get i = GuessResult.correct) ∧
      (∀ i, 5 ≤ i → (GuessResult.mk 616).get i = 0)) ∧
    GuessResult.from ((GuessResult.mk 616).to_str 5) = ⟨616⟩ :=
  have hsym : ∀ i, i < 5 → (GuessResult.mk 616).get i = GuessResult.absent ∨
      (GuessResult.mk 616).get i = GuessResult.misplaced ∨
      (GuessResult.mk 616).get i = GuessResult.correct := by decide
  have hzero : ∀ i, 5 ≤ i → (GuessResult.mk 616).get i = 0 := by
    intro i hi
    rw [GuessResult.get_eq]
    have h1 : 616 < 4 ^ i :=
      lt_of_lt_of_le (by decide : 616 < 4 ^ 5) (Nat.pow_le_pow_right (by decide) hi)
    show 616 / 4 ^ i % 4 = 0
    rw [Nat.div_eq_of_lt h1]
  ⟨⟨by decide, hsym, hzero⟩, from_to_str ⟨616⟩ 5 (by decide) hsym hzero⟩

/-! ## The assessor -/

/-- C8: whatever order the hash map is iterated in and whatever algorithm
`std::sort` runs, the cases returned by `WordleState::assess` partition the
candidates by outcome: the case codes are pairwise distinct, no case is empty,
the answers of each case are the candidates whose code against the guess is
the code of the case, in their order in `candidates`, every candidate falls in a
case, and the case sizes sum to `candidate_count()`. -/
theorem assess_partition {F : Type} (ar : Arith F)
    (iter : List (Nat × List Nat) → List (Nat × List Nat))
    (sort : (Nat × List Nat → Nat × List Nat → Bool) → List (Nat × List Nat) →
      List (Nat × List Nat))
    (st : WordleState F) (guess : List Char)
    (hiter : IsIterationOrder iter) (hsort : IsStdSort sort) :
    ((st.assess ar iter sort guess).cases.map Case.result).Nodup ∧
      (∀ c ∈ (st.assess ar iter sort guess).cases, c.answers ≠ []) ∧
      (∀ c ∈ (st.assess ar iter sort guess).cases,
        c.answers = st.candidates.filter (fun a =>
          decide (match_word st.wordle.word_len (st.wordle.answer_dict.get a) (data guess) =
            c.result))) ∧
      (∀ a ∈ st.candidates, ∃ c ∈ (st.assess ar iter sort guess).cases,
        c.result = match_word st.wordle.word_len (st.wordle.answer_dict.get a) (data guess)) ∧
      ((st.assess ar iter sort guess).cases.map (fun c => c.answers.length)).sum =
        st.candidate_count := by
  have hperm := assess_entries_perm iter sort hiter hsort st guess
  have inv := group_by_inv (fun a => (match_word st.wordle.word_len
    (st.wordle.answer_dict.get a) (data guess)).data) st.candidates
  rw [← assess_map_eq] at inv
  rw [assess_cases_eq]
  have hmem : ∀ c ∈ (sort WordleState.assess_comp (iter (st.assess_map guess))).map
      (fun it => (⟨⟨it.1⟩, it.2⟩ : Case)),
      ∃ e ∈ st.assess_map guess, c = ⟨⟨e.1⟩, e.2⟩ := by
    intro c hc
    obtain ⟨e, he, hce⟩ := List.mem_map.1 hc
    exact ⟨e, hperm.mem_iff.1 he, hce.symm⟩
  refine ⟨?_, ?_, ?_, ?_, ?_⟩
  · rw [List.map_map]
    have hfun : (Case.result ∘ fun it : Nat × List Nat => (⟨⟨it.1⟩, it.2⟩ : Case)) =
        GuessResult.mk ∘ Prod.fst := rfl
    rw [hfun, ← List.map_map]
    apply List.Nodup.map
    · intro x y hxy
      exact GuessResult.mk.inj hxy
    · exact (hperm.map Prod.fst).nodup_iff.2 inv.nodup
  · intro c hc
    obtain ⟨e, he, rfl⟩ := hmem c hc
    exact (inv.mem e he).2
  · intro c hc
    obtain ⟨e, he, rfl⟩ := hmem c hc
    rw [(inv.mem e he).1]
    exact filter_code_eq _ _ _
  · intro a ha
    obtain ⟨e, he, hea⟩ := List.mem_map.1 (inv.cover a ha)
    refine ⟨⟨⟨e.1⟩, e.2⟩, List.mem_map.2 ⟨e, hperm.mem_iff.2 he, rfl⟩, ?_⟩
    show GuessResult.mk e.1 = _
    rw [hea]
  · rw [List.map_map]
    have hfun : ((fun c : Case => c.answers.length) ∘
        fun it : Nat × List Nat => (⟨⟨it.1⟩, it.2⟩ : Case)) = fun e => e.2.length := rfl
    rw [hfun, (hperm.map _).sum_eq, inv.total]
    rfl

theorem assess_partition_witness :
    (IsIterationOrder (List.reverse : List (Nat × List Nat) → List (Nat × List Nat)) ∧
      IsStdSort (insertion_sort :
        (Nat × List Nat → Nat × List Nat → Bool) → List (Nat × List Nat) → _)) ∧
    ((((demo_state Int).assess int_arith List.reverse insertion_sort ['A', 'B']).cases.map
        Case.result).Nodup ∧
      (∀ c ∈ ((demo_state Int).assess int_arith List.reverse insertion_sort ['A', 'B']).cases,
        c.answers ≠ []) ∧
      (∀ c ∈ ((demo_state Int).assess int_arith List.reverse insertion_sort ['A', 'B']).cases,
        c.answers = (demo_state Int).candidates.filter (fun a =>
          decide (match_word (demo_state Int).wordle.word_len
            ((demo_state Int).wordle.answer_dict.get a) (data ['A', 'B']) = c.result))) ∧
      (∀ a ∈ (demo_state Int).candidates,
        ∃ c ∈ ((demo_state Int).assess int_arith List.reverse insertion_sort ['A', 'B']).cases,
          c.result = match_word (demo_state Int).wordle.word_len
            ((demo_state Int).wordle.answer_dict.get a) (data ['A', 'B'])) ∧
      (((demo_state Int).assess int_arith List.reverse insertion_sort ['A', 'B']).cases.map
        (fun c => c.answers.length)).sum = (demo_state Int).candidate_count) :=
  ⟨⟨isIterationOrder_reverse, insertion_sort_isStdSort⟩,
    assess_partition int_arith List.reverse insertion_sort (demo_state Int) ['A', 'B']
      isIterationOrder_reverse insertion_sort_isStdSort⟩

theorem assess_demo_distinct :
    ((demo_state Int).assess int_arith List.reverse insertion_sort ['A', 'B']).cases =
    [⟨⟨0⟩, [3]⟩, ⟨⟨2⟩, [2]⟩, ⟨⟨5⟩, [1]⟩, ⟨⟨10⟩, [0]⟩] := by decide

/-- C9: the cases returned by `WordleState::assess` come by descending size,
and by ascending code among cases of equal size; and two runs that differ in
the order the hash map is iterated in, or in the algorithm behind `std::sort`,
return the same list of cases. -/
theorem assess_order {F : Type} (ar : Arith F)
    (iter1 iter2 : List (Nat × List Nat) → List (Nat × List Nat))
    (sort1 sort2 : (Nat × List Nat → Nat × List Nat → Bool) → List (Nat × List Nat) →
      List (Nat × List Nat))
    (st : WordleState F) (guess : List Char)
    (hiter1 : IsIterationOrder iter1) (hsort1 : IsStdSort sort1)
    (hiter2 : IsIterationOrder iter2) (hsort2 : IsStdSort sort2) :
    (st.assess ar iter1 sort1 guess).cases.Chain' (fun x y =>
        x.answers.length > y.answers.length ∨
          (x.answers.length = y.answers.length ∧ x.result.data < y.result.data)) ∧
      (st.assess ar iter2 sort2 guess).cases = (st.assess ar iter1 sort1 guess).cases := by
  have hs1 := assess_sorted iter1 sort1 hiter1 hsort1 st guess
  have hs2 := assess_sorted iter2 sort2 hiter2 hsort2 st guess
  have hp1 := assess_entries_perm iter1 sort1 hiter1 hsort1 st guess
  have hp2 := assess_entries_perm iter2 sort2 hiter2 hsort2 st guess
  constructor
  · rw [assess_cases_eq, List.chain'_map]
    refine (List.Pairwise.chain' hs1).imp ?_
    intro x y hxy
    exact (assess_comp_iff x y).1 hxy
  · rw [assess_cases_eq, assess_cases_eq]
    congr 1
    have hanti : IsAntisymm (Nat × List Nat)
        (fun x y => WordleState.assess_comp x y = true) := by
      constructor
      intro x y hxy hyx
      rw [assess_comp_iff] at hxy hyx
      omega
    exact @List.eq_of_perm_of_sorted _ _ hanti _ _ (hp2.trans hp1.symm) hs2 hs1

theorem assess_order_witness :
    (IsIterationOrder (List.reverse : List (Nat × List Nat) → List (Nat × List Nat)) ∧
      IsStdSort (insertion_sort :
        (Nat × List Nat → Nat × List Nat → Bool) → List (Nat × List Nat) → _) ∧
      IsIterationOrder (fun l : List (Nat × List Nat) => l) ∧
      IsStdSort (reverse_insertion_sort :
        (Nat × List Nat → Nat × List Nat → Bool) → List (Nat × List Nat) → _)) ∧
    (((demo_state Int).assess int_arith List.reverse insertion_sort ['A', 'X']).cases.Chain'
        (fun x y => x.answers.length > y.answers.length ∨
          (x.answers.length = y.answers.length ∧ x.result.data < y.result.data)) ∧
      ((demo_state Int).assess int_arith (fun l => l) reverse_insertion_sort ['A', 'X']).cases =
        ((demo_state Int).assess int_arith List.reverse insertion_sort ['A', 'X']).cases) :=
  ⟨⟨isIterationOrder_reverse, insertion_sort_isStdSort, isIterationOrder_id,
      reverse_insertion_sort_isStdSort⟩,
    assess_order int_arith List.reverse (fun l => l) insertion_sort reverse_insertion_sort
      (demo_state Int) ['A', 'X'] isIterationOrder_reverse insertion_sort_isStdSort
      isIterationOrder_id reverse_insertion_sort_isStdSort⟩

theorem assess_demo_ties :
    ((demo_state Int).assess int_arith List.reverse insertion_sort ['A', 'X']).cases =
    [⟨⟨2⟩, [0, 2]⟩, ⟨⟨0⟩, [3]⟩, ⟨⟨1⟩, [1]⟩] := by decide

/-! ## The ranker -/

set_option maxRecDepth 100000 in
/-- C6 fails as stated: the entropy that `calculate` stores is a rounded
`double`, not the exact value of the formula. In the session of the ten
answers `A` to `J` with the one guess `Z`, every answer yields the code 0, so
the formula is `log2(10) - (1/10) * (10 * log2(10))`, which is 0; the code
stores `log2(10) - (10 * log2(10)) / 10` computed in `double`, which is
`-2 ^ 52 * 2 ^ -103`, about -4.44e-16. -/
theorem calculate_entropy_rounds :
    1 ≤ ten_state.candidate_count ∧ ten_state.calculated = false ∧ ten_state.choices = [] ∧
      (ten_state.calculate ieee_arith (fun l => l)
          (libstdcxx_sort range_insertion_sort)).choices =
        [⟨0, some ⟨-4503599627370496, -52⟩, some ⟨-4503599627370496, -103⟩⟩] ∧
      ten_state.candidates.map (fun a =>
          (match_word ten_state.wordle.word_len (ten_state.wordle.answer_dict.get a)
            (ten_state.wordle.full_dict.get 0)).data) = List.replicate 10 0 ∧
      entropy_formula (Real.logb 2) (ten_state.candidates.map (fun a =>
          (match_word ten_state.wordle.word_len (ten_state.wordle.answer_dict.get a)
            (ten_state.wordle.full_dict.get 0)).data)) = 0 := by
  have hcodes : ten_state.candidates.map (fun a =>
      (match_word ten_state.wordle.word_len (ten_state.wordle.answer_dict.get a)
        (ten_state.wordle.full_dict.get 0)).data) = List.replicate 10 0 := by decide
  refine ⟨by decide, by decide, by decide, by decide, hcodes, ?_⟩
  rw [hcodes]
  have hdedup : (List.replicate 10 0 : List Nat).dedup = [0] := by decide
  have hcount : (List.replicate 10 0 : List Nat).count 0 = 10 := by decide
  unfold entropy_formula
  rw [hdedup]
  simp only [List.map_cons, List.map_nil, List.sum_cons, List.sum_nil, hcount,
    List.length_replicate]
  have h10 : ((10 : Nat) : Real) = 10 := by norm_num
  rw [h10]
  ring

/-- C6, as the code has it: in a state with at least one candidate and no
cached ranking, after `WordleState::calculate` the list `choices` holds exactly
one entry for each guess id below the size of the guess corpus, and the
entropy of the entry for guess `g` is what the statements of `calculate`
compute, in the arithmetic of `double`, from the counts of the hash map: the
map holds, in some order, each distinct code against `g` with the number of
candidates that yield it, and the entropy is `log2(N) - temp / N` with `temp`
the sum of the `c_i * log2(c_i)` accumulated from 0 in that order. Whatever
the arithmetic, the iteration order and the algorithm behind `std::sort`. -/
theorem calculate_entropies {F : Type} (ar : Arith F)
    (iter : List (Nat × Nat) → List (Nat × Nat))
    (sort : (GuessChoice F → GuessChoice F → Bool) → List (GuessChoice F) →
      List (GuessChoice F))
    (st : WordleState F)
    (hiter : IsIterationOrder iter) (hsort : IsStdSort sort) (hgt : StrictWeak ar.gt)
    (_hN : 1 ≤ st.candidate_count) (hcalc : st.calculated = false) (hchoices : st.choices = []) :
    ((st.calculate ar iter sort).choices.map GuessChoice.guess_id).Perm
        (List.range st.wordle.full_dict.size) ∧
      ∀ e ∈ (st.calculate ar iter sort).choices,
        ∃ counts : List (Nat × Nat),
          counts.Perm (code_counts (st.candidates.map (fun a =>
            (match_word st.wordle.word_len (st.wordle.answer_dict.get a)
              (st.wordle.full_dict.get e.guess_id)).data))) ∧
          e.entropy = entropy_of_counts ar counts st.candidate_count := by
  have hperm := (hsort _ (strictWeak_choice_comp ar hgt)
    (st.choices ++ (List.range st.wordle.full_dict.size).map
      (fun i => ⟨i, ar.ofInt (-1), WordleState.guess_entropy ar iter st i⟩))).1
  rw [← calculate_choices _ iter sort st hcalc, hchoices, List.nil_append] at hperm
  constructor
  · refine (hperm.map GuessChoice.guess_id).trans ?_
    rw [List.map_map]
    have hfun : (GuessChoice.guess_id ∘ fun i : Nat =>
        (⟨i, ar.ofInt (-1), WordleState.guess_entropy ar iter st i⟩ : GuessChoice F)) =
        id := rfl
    rw [hfun, List.map_id]
  · intro e he
    obtain ⟨i, _, rfl⟩ := List.mem_map.1 (hperm.mem_iff.1 he)
    exact ⟨iter (st.count_map (st.wordle.full_dict.get i)),
      (hiter _).trans (count_map_perm st _), guess_entropy_def ar iter st i⟩

theorem calculate_entropies_witness :
    (IsIterationOrder (List.reverse : List (Nat × Nat) → List (Nat × Nat)) ∧
      IsStdSort (insertion_sort :
        (GuessChoice Int → GuessChoice Int → Bool) → List (GuessChoice Int) → _) ∧
      StrictWeak int_arith.gt ∧
      1 ≤ (demo_state Int).candidate_count ∧ (demo_state Int).calculated = false ∧
      (demo_state Int).choices = []) ∧
    ((((demo_state Int).calculate int_arith List.reverse insertion_sort).choices.map
        GuessChoice.guess_id).Perm (List.range (demo_state Int).wordle.full_dict.size) ∧
      ∀ e ∈ ((demo_state Int).calculate int_arith List.reverse insertion_sort).choices,
        ∃ counts : List (Nat × Nat),
          counts.Perm (code_counts ((demo_state Int).candidates.map (fun a =>
            (match_word (demo_state Int).wordle.word_len
              ((demo_state Int).wordle.answer_dict.get a)
              ((demo_state Int).wordle.full_dict.get e.guess_id)).data))) ∧
          e.entropy = entropy_of_counts int_arith counts (demo_state Int).candidate_count) :=
  ⟨⟨isIterationOrder_reverse, insertion_sort_isStdSort, strictWeak_decide_gt, by decide,
      rfl, rfl⟩,
    calculate_entropies int_arith List.reverse insertion_sort (demo_state Int)
      isIterationOrder_reverse insertion_sort_isStdSort strictWeak_decide_gt (by decide)
      rfl rfl⟩

/-- C7, as the code has it: after `WordleState::calculate` on a state with at
least one candidate and no ranking computed yet, `choices` is ordered by
non-increasing entropy: no entry has a greater entropy than an entry before
it. The order among entries of equal entropy is whatever `std::sort` leaves. -/
theorem calculate_sorted {F : Type} (ar : Arith F)
    (iter : List (Nat × Nat) → List (Nat × Nat))
    (sort : (GuessChoice F → GuessChoice F → Bool) → List (GuessChoice F) →
      List (GuessChoice F))
    (st : WordleState F)
    (hsort : IsStdSort sort) (hgt : StrictWeak ar.gt)
    (_hN : 1 ≤ st.candidate_count) (hcalc : st.calculated = false) :
    (st.calculate ar iter sort).choices.Pairwise
      (fun x y => ar.gt y.entropy x.entropy = false) := by
  rw [calculate_choices ar iter sort st hcalc]
  exact (hsort _ (strictWeak_choice_comp ar hgt) _).2

theorem calculate_sorted_witness :
    (IsStdSort (insertion_sort :
        (GuessChoice Int → GuessChoice Int → Bool) → List (GuessChoice Int) → _) ∧
      StrictWeak int_arith.gt ∧ 1 ≤ demo_state_two.candidate_count ∧
      demo_state_two.calculated = false) ∧
    (demo_state_two.calculate int_arith List.reverse insertion_sort).choices.Pairwise
      (fun x y => int_arith.gt y.entropy x.entropy = false) :=
  ⟨⟨insertion_sort_isStdSort, strictWeak_decide_gt, by decide, by decide⟩,
    calculate_sorted int_arith List.reverse insertion_sort demo_state_two
      insertion_sort_isStdSort strictWeak_decide_gt (by decide) (by decide)⟩

set_option maxRecDepth 100000 in
/-- C7 fails as stated: ties need not come by ascending guess id. In the
session with the two candidates `A` and `B` and the seventeen guesses `A` to
`Q`, guesses 0 and 1 have entropy 1 and the other fifteen have entropy 0 (all
exact in `double`); the `std::sort` of libstdc++ returns them as 1, 0, 16, 15,
..., 2: guess 1 before guess 0, and guess 16 before guess 2. -/
theorem calculate_tie_order_counterexample :
    1 ≤ rank_state.candidate_count ∧ rank_state.calculated = false ∧
      rank_state.choices = [] ∧
      (rank_state.calculate int_arith (fun l => l)
          (libstdcxx_sort range_insertion_sort)).choices =
        [⟨1, -1, 1⟩, ⟨0, -1, 1⟩, ⟨16, -1, 0⟩, ⟨15, -1, 0⟩, ⟨14, -1, 0⟩, ⟨13, -1, 0⟩,
          ⟨12, -1, 0⟩, ⟨11, -1, 0⟩, ⟨10, -1, 0⟩, ⟨9, -1, 0⟩, ⟨8, -1, 0⟩, ⟨7, -1, 0⟩,
          ⟨6, -1, 0⟩, ⟨5, -1, 0⟩, ⟨4, -1, 0⟩, ⟨3, -1, 0⟩, ⟨2, -1, 0⟩] ∧
      ¬ (rank_state.calculate int_arith (fun l => l)
          (libstdcxx_sort range_insertion_sort)).choices.Pairwise
        (fun x y => x.entropy > y.entropy ∨
          (x.entropy = y.entropy ∧ x.guess_id < y.guess_id)) := by
  have h : (rank_state.calculate int_arith (fun l => l)
      (libstdcxx_sort range_insertion_sort)).choices =
      [⟨1, -1, 1⟩, ⟨0, -1, 1⟩, ⟨16, -1, 0⟩, ⟨15, -1, 0⟩, ⟨14, -1, 0⟩, ⟨13, -1, 0⟩,
        ⟨12, -1, 0⟩, ⟨11, -1, 0⟩, ⟨10, -1, 0⟩, ⟨9, -1, 0⟩, ⟨8, -1, 0⟩, ⟨7, -1, 0⟩,
        ⟨6, -1, 0⟩, ⟨5, -1, 0⟩, ⟨4, -1, 0⟩, ⟨3, -1, 0⟩, ⟨2, -1, 0⟩] := by decide
  refine ⟨by decide, by decide, by decide, h, ?_⟩
  rw [h]
  decide

/-! ## Decoding and the sentinel -/

/-- On strings shorter than `2 ^ 31`, where the length survives the narrowing
to `int`: `GuessResult::from(s)` is the invalid sentinel exactly when `s` is
longer than `max_length` or holds a character outside `-`, `1`, `m`, `2`, `C`,
`3`; `M` and `c` are rejected; the empty string and a string of sixteen
characters of the alphabet do not decode to the sentinel. -/
theorem from_invalid_iff_of_lt (s : List Char) (hint : s.length < 2 ^ 31) :
    (GuessResult.from s = GuessResult.invalid ↔
      (s.length > GuessResult.max_length ∨ ∃ c ∈ s, c ∉ ['-', '1', 'm', '2', 'C', '3'])) ∧
    GuessResult.from ['M'] = GuessResult.invalid ∧
    GuessResult.from ['c'] = GuessResult.invalid ∧
    GuessResult.from [] ≠ GuessResult.invalid ∧
    GuessResult.from (List.replicate 16 'C') ≠ GuessResult.invalid ∧
    GuessResult.invalid.data = 2 ^ 32 - 1 := by
  refine ⟨?_, by decide, by decide, by decide, by decide, rfl⟩
  constructor
  · intro h
    by_contra hcon
    rw [not_or, not_exists] at hcon
    obtain ⟨hlen, hall⟩ := hcon
    have hlen16 : s.length ≤ 16 := by
      have : ¬ (s.length > 16) := hlen
      omega
    have hvalid : ∀ c ∈ s, verdict c ≠ none := by
      intro c hc hv
      exact hall c ⟨hc, (verdict_none_iff c).1 hv⟩
    have hget := from_valid_get s hlen16 hvalid 0
    rw [h, invalid_get_zero] at hget
    have hle : (s.map symbol).getD 0 0 ≤ 2 := by
      cases s with
      | nil => simp
      | cons c s => simpa using symbol_le c
    omega
  · rintro (hlen | ⟨c, hc, hbad⟩)
    · rw [from_of_lt s hint, if_pos hlen]
    · rw [from_of_lt s hint]
      split
      · rfl
      · exact from_loop_invalid s 0 ⟨0⟩ ⟨c, hc, (verdict_none_iff c).2 hbad⟩

/-- C11, on the code: the length of the string is narrowed to `int` before it
is compared with `max_length`. A string of `2 ^ 31` characters has the narrowed
length `-2 ^ 31`: the length test lets it pass and the loop reads nothing, so
`GuessResult::from` returns the code 0 and not the sentinel, be its characters
in the alphabet (`-`) or not (`x`). A string of `2 ^ 32 + 5` characters has the
narrowed length 5, which is also what the `guess` command of a session of
five-letter words compares: it decodes like its first five characters. -/
theorem from_accepts_huge_string :
    (List.replicate (2 ^ 31) 'x').length > GuessResult.max_length ∧
    (∃ c ∈ List.replicate (2 ^ 31) 'x', c ∉ ['-', '1', 'm', '2', 'C', '3']) ∧
    to_int (List.replicate (2 ^ 31) 'x').length = -2 ^ 31 ∧
    GuessResult.from (List.replicate (2 ^ 31) 'x') = ⟨0⟩ ∧
    GuessResult.from (List.replicate (2 ^ 31) 'x') ≠ GuessResult.invalid ∧
    GuessResult.from (List.replicate (2 ^ 31) '-') = ⟨0⟩ ∧
    GuessResult.from (List.replicate (2 ^ 31) '-') ≠ GuessResult.invalid ∧
    to_int (['C', 'C', 'C', 'C', 'C'] ++ List.replicate (2 ^ 32) 'x').length = 5 ∧
    GuessResult.from (['C', 'C', 'C', 'C', 'C'] ++ List.replicate (2 ^ 32) 'x') =
      GuessResult.from ['C', 'C', 'C', 'C', 'C'] ∧
    GuessResult.from ['C', 'C', 'C', 'C', 'C'] = ⟨682⟩ := by
  have hlong : (['C', 'C', 'C', 'C', 'C'] ++ List.replicate (2 ^ 32) 'x').length =
      2 ^ 32 + 5 := by
    rw [List.length_append, List.length_replicate]
    rfl
  have hint5 : to_int (2 ^ 32 + 5) = 5 := by decide
  have hwrap : GuessResult.from (['C', 'C', 'C', 'C', 'C'] ++ List.replicate (2 ^ 32) 'x') =
      GuessResult.from ['C', 'C', 'C', 'C', 'C'] := by
    have hshort : GuessResult.from ['C', 'C', 'C', 'C', 'C'] =
        GuessResult.from_loop ['C', 'C', 'C', 'C', 'C'] 0 ⟨0⟩ := from_of_short _ (by decide)
    rw [hshort]
    unfold GuessResult.from
    simp only [hlong, hint5]
    rw [if_neg (by decide)]
    have h5 : (5 : Int).toNat = ['C', 'C', 'C', 'C', 'C'].length := rfl
    rw [h5, List.take_left']
    rfl
  have hlen : ∀ c : Char, (List.replicate (2 ^ 31) c).length = 2 ^ 31 :=
    fun c => List.length_replicate _ _
  have hint : to_int (2 ^ 31) = -2 ^ 31 := by decide
  have hfrom : ∀ c : Char, GuessResult.from (List.replicate (2 ^ 31) c) = ⟨0⟩ := by
    intro c
    unfold GuessResult.from
    simp only [hlen, hint]
    rw [if_neg (by decide)]
    have h0 : (-2 ^ 31 : Int).toNat = 0 := by decide
    rw [h0, List.take_zero]
    rfl
  refine ⟨?_, ?_, ?_, hfrom 'x', ?_, hfrom '-', ?_, ?_, hwrap, by decide⟩
  · rw [hlen]; decide
  · refine ⟨'x', ?_, by decide⟩
    rw [List.mem_replicate]
    exact ⟨by decide, rfl⟩
  · rw [hlen]; exact hint
  · rw [hfrom 'x']; decide
  · rw [hfrom '-']; decide
  · rw [hlong]; exact hint5

/-- C12: for a string `s` of at most 16 characters, all in the alphabet,
`GuessResult::from(s)` has at each position below the length of `s` the symbol
absent for `-` or `1`, misplaced for `m` or `2`, correct for `C` or `3`, and
zero bits from the length of `s` on; so two such strings that spell the same
verdicts, one in digits and one in letters say, decode to the same code. -/
theorem from_decodes (s : List Char) (hlen : s.length ≤ GuessResult.max_length)
    (halpha : ∀ c ∈ s, c ∈ ['-', '1', 'm', '2', 'C', '3']) :
    (∀ i (hi : i < s.length),
      ((s[i] = '-' ∨ s[i] = '1') → (GuessResult.from s).get i = GuessResult.absent) ∧
      ((s[i] = 'm' ∨ s[i] = '2') → (GuessResult.from s).get i = GuessResult.misplaced) ∧
      ((s[i] = 'C' ∨ s[i] = '3') → (GuessResult.from s).get i = GuessResult.correct)) ∧
    (∀ i, s.length ≤ i → (GuessResult.from s).get i = 0) ∧
    (GuessResult.from s).data < 4 ^ s.length ∧
    (∀ t : List Char, t.length ≤ GuessResult.max_length →
      (∀ c ∈ t, c ∈ ['-', '1', 'm', '2', 'C', '3']) → t.map verdict = s.map verdict →
      GuessResult.from t = GuessResult.from s) := by
  have hlen16 : s.length ≤ 16 := hlen
  have hvalid_of : ∀ u : List Char, (∀ c ∈ u, c ∈ ['-', '1', 'm', '2', 'C', '3']) →
      ∀ c ∈ u, verdict c ≠ none :=
    fun u hu c hc hv => (verdict_none_iff c).1 hv (hu c hc)
  have hvalid := hvalid_of s halpha
  have hget := from_valid_get s hlen16 hvalid
  have hzero : ∀ i, s.length ≤ i → (GuessResult.from s).get i = 0 := by
    intro i hi
    rw [hget i, List.getD_eq_default]
    rw [List.length_map]
    exact hi
  refine ⟨?_, hzero, data_lt_of_get_zero _ _ hzero, ?_⟩
  · intro i hi
    have hsym : (GuessResult.from s).get i = symbol s[i] := by
      rw [hget i, List.getD_eq_getElem _ _ (by rw [List.length_map]; exact hi),
        List.getElem_map]
    rw [hsym]
    refine ⟨?_, ?_, ?_⟩
    · rintro (h | h) <;> rw [h] <;> decide
    · rintro (h | h) <;> rw [h] <;> decide
    · rintro (h | h) <;> rw [h] <;> decide
  · intro t htlen htalpha hmap
    rw [from_valid_eq_encode s hlen16 hvalid,
      from_valid_eq_encode t htlen (hvalid_of t htalpha)]
    have hsym : t.map symbol = s.map symbol := by
      have h1 : ∀ u : List Char, u.map symbol =
          (u.map verdict).map (fun v => v.getD GuessResult.absent) := by
        intro u
        rw [List.map_map]
        rfl
      rw [h1 t, h1 s, hmap]
    rw [hsym]

theorem from_decodes_witness :
    (['-', '2', 'C', '1'].length ≤ GuessResult.max_length ∧
      (∀ c ∈ ['-', '2', 'C', '1'], c ∈ ['-', '1', 'm', '2', 'C', '3'])) ∧
    ((∀ i (hi : i < ['-', '2', 'C', '1'].length),
      ((['-', '2', 'C', '1'][i] = '-' ∨ ['-', '2', 'C', '1'][i] = '1') →
        (GuessResult.from ['-', '2', 'C', '1']).get i = GuessResult.absent) ∧
      ((['-', '2', 'C', '1'][i] = 'm' ∨ ['-', '2', 'C', '1'][i] = '2') →
        (GuessResult.from ['-', '2', 'C', '1']).get i = GuessResult.misplaced) ∧
      ((['-', '2', 'C', '1'][i] = 'C' ∨ ['-', '2', 'C', '1'][i] = '3') →
        (GuessResult.from ['-', '2', 'C', '1']).get i = GuessResult.correct)) ∧
    (∀ i, ['-', '2', 'C', '1'].length ≤ i → (GuessResult.from ['-', '2', 'C', '1']).get i = 0) ∧
    (GuessResult.from ['-', '2', 'C', '1']).data < 4 ^ ['-', '2', 'C', '1'].length ∧
    (∀ t : List Char, t.length ≤ GuessResult.max_length →
      (∀ c ∈ t, c ∈ ['-', '1', 'm', '2', 'C', '3']) →
      t.map verdict = ['-', '2', 'C', '1'].map verdict →
      GuessResult.from t = GuessResult.from ['-', '2', 'C', '1'])) :=
  ⟨⟨by decide, by decide⟩, from_decodes ['-', '2', 'C', '1'] (by decide) (by decide)⟩

theorem from_spellings_demo :
    GuessResult.from ['1', '2', '3', '3', '1'] = GuessResult.from ['-', 'm', 'C', 'C', '-'] ∧
    GuessResult.from ['-', 'm', 'C', 'C', '-'] = ⟨encode [0, 1, 2, 2, 0]⟩ := by decide

/-- C13: for `L ≤ 16`, the code returned by `match_word` has at every position
below `L` a symbol that is absent, misplaced or correct, never the value 3, has
zero bits from position `L` on, and is not the invalid sentinel. -/
theorem match_word_valid (L : Nat) (answer guess : CStr) (hL : L ≤ GuessResult.max_length) :
    (∀ i, i < L → (match_word L answer guess).get i = GuessResult.absent ∨
      (match_word L answer guess).get i = GuessResult.misplaced ∨
      (match_word L answer guess).get i = GuessResult.correct) ∧
    (∀ i, (match_word L answer guess).get i ≠ 3) ∧
    (∀ i, L ≤ i → (match_word L answer guess).get i = 0) ∧
    (match_word L answer guess).data < 4 ^ L ∧
    match_word L answer guess ≠ GuessResult.invalid := by
  have inv := match_word_inv L answer guess hL
  refine ⟨?_, ?_, inv.out, data_lt_of_get_zero _ _ inv.out, ?_⟩
  · intro i _
    have := inv.le2 i
    show _ = 0 ∨ _ = 1 ∨ _ = 2
    omega
  · intro i
    have := inv.le2 i
    omega
  · intro h
    have := inv.le2 0
    rw [h, invalid_get_zero] at this
    omega

theorem match_word_valid_witness :
    (5 ≤ GuessResult.max_length) ∧
    ((∀ i, i < 5 →
      (match_word 5 (data "CRANE".toList) (data "TRACE".toList)).get i = GuessResult.absent ∨
      (match_word 5 (data "CRANE".toList) (data "TRACE".toList)).get i =
        GuessResult.misplaced ∨
      (match_word 5 (data "CRANE".toList) (data "TRACE".toList)).get i =
        GuessResult.correct) ∧
    (∀ i, (match_word 5 (data "CRANE".toList) (data "TRACE".toList)).get i ≠ 3) ∧
    (∀ i, 5 ≤ i → (match_word 5 (data "CRANE".toList) (data "TRACE".toList)).get i = 0) ∧
    (match_word 5 (data "CRANE".toList) (data "TRACE".toList)).data < 4 ^ 5 ∧
    match_word 5 (data "CRANE".toList) (data "TRACE".toList) ≠ GuessResult.invalid) :=
  ⟨by decide, match_word_valid 5 (data "CRANE".toList) (data "TRACE".toList) (by decide)⟩

/-! ## Idempotence, cache effect and reset -/

/-- C17: applying `filter(guess, observed)` a second time right after the first
changes nothing: the candidates, the choices and the `calculated` flag are
those left by the first call. This holds for every state, guess and code, in
particular for guesses of the session length `L ≤ 16`. -/
theorem filter_idempotent {F : Type} (st : WordleState F) (guess : List Char)
    (observed : GuessResult) :
    (st.filter guess observed).filter guess observed = st.filter guess observed := by
  apply filter_noop
  intro a ha
  rw [filter_candidates, List.mem_filter] at ha
  rw [filter_wordle, mismatch_false_iff]
  exact of_decide_eq_true ha.2

/-- C18: if `filter(guess, observed)` removes no candidate, the whole state,
with `candidates`, `choices` and `calculated`, is unchanged; if it removes at
least one candidate, `choices` is empty and `calculated` is false afterwards. -/
theorem filter_cache_effect {F : Type} (st : WordleState F) (guess : List Char)
    (observed : GuessResult) :
    ((st.filter guess observed).candidates = st.candidates →
      st.filter guess observed = st) ∧
    ((st.filter guess observed).candidates ≠ st.candidates →
      (st.filter guess observed).choices = [] ∧
        (st.filter guess observed).calculated = false) := by
  constructor
  · intro h
    apply filter_noop
    intro a ha
    rw [filter_candidates, List.filter_eq_self] at h
    rw [mismatch_false_iff]
    exact of_decide_eq_true (h a ha)
  · intro h
    apply filter_clears
    by_contra hcon
    apply h
    have hall : ∀ a ∈ st.candidates,
        WordleState.mismatch st.wordle guess observed a = false := by
      intro a ha
      by_contra hm
      exact hcon ⟨a, ha, by simpa using hm⟩
    rw [filter_noop st guess observed hall]

theorem filter_cache_demo :
    (demo_state_two.calculate int_arith List.reverse insertion_sort).calculated = true ∧
    ((demo_state_two.calculate int_arith List.reverse insertion_sort).filter
        ['A', 'X'] ⟨2⟩).choices.length = 5 ∧
    ((demo_state_two.calculate int_arith List.reverse insertion_sort).filter
        ['A', 'X'] ⟨2⟩).calculated = true ∧
    ((demo_state_two.calculate int_arith List.reverse insertion_sort).filter
        ['A', 'B'] ⟨10⟩).candidates = [0] ∧
    ((demo_state_two.calculate int_arith List.reverse insertion_sort).filter
        ['A', 'B'] ⟨10⟩).choices = [] ∧
    ((demo_state_two.calculate int_arith List.reverse insertion_sort).filter
        ['A', 'B'] ⟨10⟩).calculated = false := by decide

/-- C19: whatever the state was, `reset()` leaves `candidates` equal to
`0, 1, ..., n-1` for an answer corpus of `n` words, `choices` empty and
`calculated` false; and a freshly constructed `WordleState` is in that state,
whatever `calculated` held before the constructor ran. -/
theorem reset_state {F : Type} (st : WordleState F) (garbage : Bool) :
    st.reset = { wordle := st.wordle, candidates := List.range st.wordle.answer_dict.size,
                 choices := [], calculated := false } ∧
    (WordleState.new st.wordle garbage : WordleState F) = st.reset ∧
    st.reset.candidates.length = st.wordle.answer_dict.size := by
  have h := reset_candidates st
  have hreset : st.reset =
      ⟨st.wordle, List.range st.wordle.answer_dict.size, [], false⟩ := by
    have hfields : st.reset = ⟨st.wordle, st.reset.candidates, [], false⟩ := rfl
    rw [hfields, h]
  refine ⟨hreset, ?_, ?_⟩
  · rw [hreset]
    have hnew := reset_candidates (⟨st.wordle, [], [], garbage⟩ : WordleState F)
    have hfields : (WordleState.new st.wordle garbage : WordleState F) =
        ⟨st.wordle, (WordleState.new st.wordle garbage : WordleState F).candidates, [],
          false⟩ := rfl
    rw [hfields]
    unfold WordleState.new
    rw [hnew]
  · rw [h, List.length_range]

theorem reset_demo :
    ((demo_state_two.calculate int_arith List.reverse insertion_sort).reset) =
      { wordle := demo_wordle, candidates := [0, 1, 2, 3], choices := [],
        calculated := false } := by decide

/-! ## The empty candidate set -/

/-- C14 fails as stated for the methods themselves: `WordleState::calculate`
and `WordleState::assess` carry no guard. In the demo session with no candidate
left, `calculate` sets `calculated` and stores five choices whose entropy is
`log2(0) - 0 / 0`, not a finite number, and `assess` returns that entropy with
no case. -/
theorem empty_set_not_guarded :
    (demo_state_empty (Option Int)).candidate_count = 0 ∧
    ((demo_state_empty (Option Int)).calculate nan_arith (fun l => l)
        insertion_sort).calculated = true ∧
    ((demo_state_empty (Option Int)).calculate nan_arith (fun l => l)
        insertion_sort).choices =
      [⟨0, some (-1), none⟩, ⟨1, some (-1), none⟩, ⟨2, some (-1), none⟩,
        ⟨3, some (-1), none⟩, ⟨4, some (-1), none⟩] ∧
    ((demo_state_empty (Option Int)).assess nan_arith (fun l => l) insertion_sort
        ['A', 'B']).entropy = none ∧
    ((demo_state_empty (Option Int)).assess nan_arith (fun l => l) insertion_sort
        ['A', 'B']).cases = [] ∧
    nan_arith.log2 (nan_arith.ofInt 0) = none := by decide

/-- C14, as the code has it: the guard is in the command loop. For a state with
zero candidates the `calculate` command prints "No candidates left, nothing to
calculate." and returns `false`, and the `assess` command returns `false` with
a message, "No candidates left, nothing to assess." when the guess has the
session length; neither calls `WordleState::calculate` or
`WordleState::assess`, so no entropy is computed and the state is untouched. -/
theorem commands_reject_empty {F : Type} (ar : Arith F)
    (iter_c : List (Nat × Nat) → List (Nat × Nat))
    (sort_c : (GuessChoice F → GuessChoice F → Bool) → List (GuessChoice F) →
      List (GuessChoice F))
    (iter_g : List (Nat × List Nat) → List (Nat × List Nat))
    (sort_g : (Nat × List Nat → Nat × List Nat → Bool) → List (Nat × List Nat) →
      List (Nat × List Nat))
    (st : WordleState F) (guess : Option (List Char)) (h : st.candidate_count = 0) :
    cmd_calculate ar iter_c sort_c st =
        Except.error "No candidates left, nothing to calculate." ∧
      (∃ msg, cmd_assess ar iter_g sort_g st guess = Except.error msg) ∧
      (∀ g, guess = some g → st.wordle.word_len = g.length →
        cmd_assess ar iter_g sort_g st guess =
          Except.error "No candidates left, nothing to assess.") := by
  refine ⟨?_, ?_, ?_⟩
  · unfold cmd_calculate
    rw [if_pos h.symm]
  · unfold cmd_assess
    cases guess with
    | none => exact ⟨_, rfl⟩
    | some g =>
      by_cases hlen : st.wordle.word_len ≠ g.length
      · exact ⟨_, if_pos hlen⟩
      · refine ⟨"No candidates left, nothing to assess.", ?_⟩
        show (if st.wordle.word_len ≠ g.length then _ else _) = _
        rw [if_neg hlen, if_pos h.symm]
  · intro g hg hlen
    subst hg
    show (if st.wordle.word_len ≠ g.length then _ else _) = _
    rw [if_neg (not_not.2 hlen), if_pos h.symm]

theorem commands_reject_empty_witness :
    ((demo_state_empty Int).candidate_count = 0) ∧
    (cmd_calculate int_arith List.reverse insertion_sort (demo_state_empty Int) =
        Except.error "No candidates left, nothing to calculate." ∧
      (∃ msg, cmd_assess int_arith List.reverse insertion_sort (demo_state_empty Int)
        (some ['A', 'B']) = Except.error msg) ∧
      (∀ g, some ['A', 'B'] = some g → (demo_state_empty Int).wordle.word_len = g.length →
        cmd_assess int_arith List.reverse insertion_sort (demo_state_empty Int)
          (some ['A', 'B']) = Except.error "No candidates left, nothing to assess.")) :=
  ⟨by decide, commands_reject_empty int_arith List.reverse insertion_sort List.reverse
    insertion_sort (demo_state_empty Int) (some ['A', 'B']) (by decide)⟩

/-! ## Loading a session with long words -/

/-- C20, on the code: asked for words of 17 letters, with dictionary files that
hold a word of 17 letters, `Wordle::create` writes its own failure line "word
length too large: expected <= 16, found 17" and then returns a session of word
length 17 all the same. -/
theorem create_accepts_long_words :
    (Wordle.create long_word_fs "demo" "en" 17).1 = [Diag.word_length_too_large 16 17] ∧
    (Wordle.create long_word_fs "demo" "en" 17).2.map Wordle.word_len = some 17 ∧
    (Wordle.create long_word_fs "demo" "en" 17).2.isSome = true ∧
    ¬ (17 ≤ GuessResult.max_length) := by decide

theorem create_demo :
    (Wordle.create (fun _ => some ⟨some 3, [['A', 'B'], ['A', 'B', 'C'], ['B', 'A']]⟩)
        "demo" "en" 2).2 =
      some { dict_name := "demo", dict_lang := "en",
             answer_dict := ⟨2, 2, ['A', 'B', 'B', 'A']⟩,
             full_dict := ⟨2, 2, ['A', 'B', 'B', 'A']⟩, word_len := 2 } ∧
    (Wordle.create (fun _ => none) "demo" "en" 2) =
      ([Diag.cannot_open "dict/demo/en/answers.txt", Diag.answer_dict_failed], none) ∧
    (Wordle.create (fun _ => some ⟨some 2, [['A', 'B']]⟩) "demo" "en" 2) =
      ([Diag.expected_word, Diag.answer_dict_failed], none) := by decide

/-- The length check of `Wordle::create` never makes it fail: whenever both
dictionary files hold the one word of `L` letters `A`, a session of word
length `L` is returned, however large `L` is. -/
theorem create_ignores_length (L : Nat) (dict_name dict_lang : String) :
    (Wordle.create (fun _ => some ⟨some 1, [List.replicate L 'A']⟩) dict_name dict_lang
      (L : Int)).2.map Wordle.word_len = some L := by
  have hread : Dict.read_words (L : Int) 1 [List.replicate L 'A'] [] 0 =
      some (List.replicate L 'A', 1) := by
    simp [Dict.read_words]
  have hdict : ∀ path : String,
      Dict.create (fun _ => some ⟨some 1, [List.replicate L 'A']⟩) path (L : Int) =
        ([], some ⟨L, 1, List.replicate L 'A'⟩) := by
    intro path
    simp only [Dict.create]
    have h1 : (1 : Int).toNat = 1 := rfl
    rw [h1, hread]
    simp
  simp only [Wordle.create, hdict]
  simp

/-! ## Assessor and ranker agree -/

/-- C16: in a state with at least one candidate and no ranking cached, for
every guess id `g` of the guess corpus, `calculate` records a choice with
guess id `g`, and the entropy that `assess` returns for the word of `g` is the
very value of every such choice. This holds in any arithmetic, that of
`double` included, when the hash map of `assess` and the hash map of
`calculate`, which receive the same codes in the same sequence, hand them out
in the same order. -/
theorem assess_entropy_eq_calculate {F : Type} (ar : Arith F)
    (iter_c : List (Nat × Nat) → List (Nat × Nat))
    (sort_c : (GuessChoice F → GuessChoice F → Bool) → List (GuessChoice F) →
      List (GuessChoice F))
    (iter_g : List (Nat × List Nat) → List (Nat × List Nat))
    (sort_g : (Nat × List Nat → Nat × List Nat → Bool) → List (Nat × List Nat) →
      List (Nat × List Nat))
    (st : WordleState F) (g : Nat)
    (hsort_c : IsStdSort sort_c) (hgt : StrictWeak ar.gt)
    (hsame : ∀ m : List (Nat × List Nat), iter_c (m.map (fun e => (e.1, e.2.length))) =
      (iter_g m).map (fun e => (e.1, e.2.length)))
    (_hN : 1 ≤ st.candidate_count) (hcalc : st.calculated = false) (hchoices : st.choices = [])
    (hg : g < st.wordle.full_dict.size)
    (hlen : st.wordle.full_dict.word_len = st.wordle.word_len) :
    (∃ e ∈ (st.calculate ar iter_c sort_c).choices, e.guess_id = g) ∧
      ∀ e ∈ (st.calculate ar iter_c sort_c).choices, e.guess_id = g →
        (st.assess ar iter_g sort_g (st.wordle.full_dict.get_str g)).entropy = e.entropy := by
  have hperm := (hsort_c _ (strictWeak_choice_comp ar hgt)
    (st.choices ++ (List.range st.wordle.full_dict.size).map
      (fun i => ⟨i, ar.ofInt (-1), WordleState.guess_entropy ar iter_c st i⟩))).1
  rw [← calculate_choices _ iter_c sort_c st hcalc, hchoices, List.nil_append] at hperm
  constructor
  · have hmem : (⟨g, ar.ofInt (-1), WordleState.guess_entropy ar iter_c st g⟩ :
        GuessChoice F) ∈ (st.calculate ar iter_c sort_c).choices :=
      hperm.mem_iff.2 (List.mem_map.2 ⟨g, List.mem_range.2 hg, rfl⟩)
    exact ⟨_, hmem, rfl⟩
  · intro e he heg
    obtain ⟨i, _, rfl⟩ := List.mem_map.1 (hperm.mem_iff.1 he)
    have hi : i = g := heg
    subst hi
    exact assess_entropy_eq_guess_entropy ar iter_c iter_g sort_g st i hsame hlen

theorem assess_entropy_eq_calculate_witness :
    (IsStdSort (insertion_sort :
        (GuessChoice Int → GuessChoice Int → Bool) → List (GuessChoice Int) → _) ∧
      StrictWeak int_arith.gt ∧
      (∀ m : List (Nat × List Nat),
        List.reverse (m.map (fun e => (e.1, e.2.length))) =
          (List.reverse m).map (fun e => (e.1, e.2.length))) ∧
      1 ≤ (demo_state Int).candidate_count ∧ (demo_state Int).calculated = false ∧
      (demo_state Int).choices = [] ∧ 3 < (demo_state Int).wordle.full_dict.size ∧
      (demo_state Int).wordle.full_dict.word_len = (demo_state Int).wordle.word_len) ∧
    ((∃ e ∈ ((demo_state Int).calculate int_arith List.reverse insertion_sort).choices,
        e.guess_id = 3) ∧
      ∀ e ∈ ((demo_state Int).calculate int_arith List.reverse insertion_sort).choices,
        e.guess_id = 3 →
        ((demo_state Int).assess int_arith List.reverse reverse_insertion_sort
          ((demo_state Int).wordle.full_dict.get_str 3)).entropy = e.entropy) :=
  ⟨⟨insertion_sort_isStdSort, strictWeak_decide_gt, fun m => (List.map_reverse _ m).symm,
      by decide, rfl, rfl, by decide, by decide⟩,
    assess_entropy_eq_calculate int_arith List.reverse insertion_sort List.reverse
      reverse_insertion_sort (demo_state Int) 3 insertion_sort_isStdSort
      strictWeak_decide_gt (fun m => (List.map_reverse _ m).symm) (by decide) rfl rfl
      (by decide) (by decide)⟩

theorem entropy_agree_demo :
    (demo_state_two.assess int_arith List.reverse insertion_sort
        (demo_state_two.wordle.full_dict.get_str 3)).entropy = 0 ∧
    (demo_state_two.assess int_arith List.reverse insertion_sort
        (demo_state_two.wordle.full_dict.get_str 0)).entropy = 1 ∧
    (demo_state_two.calculate int_arith List.reverse insertion_sort).choices =
      [⟨0, -1, 1⟩, ⟨1, -1, 1⟩, ⟨2, -1, 1⟩, ⟨3, -1, 0⟩, ⟨4, -1, 0⟩] := by decide

/-! ## Entropy bounds -/

/-- C21: in every state reached from construction by any run of `reset`,
`filter` and `calculate` calls: if `calculated` is false then `choices` is
empty; if `calculated` is true then `choices` has one entry per word of the
guess corpus and is the ranking that `calculate` produces from the current
candidates with the cache cleared; and a second `calculate` right after a
first changes nothing, so `choices` keeps one entry per guess. This holds for
every run, in particular for those that call `calculate` only with at least
one candidate. -/
theorem cache_never_stale {F : Type} (ar : Arith F)
    (iter : List (Nat × Nat) → List (Nat × Nat))
    (sort : (GuessChoice F → GuessChoice F → Bool) → List (GuessChoice F) →
      List (GuessChoice F))
    (wordle : Wordle) (garbage : Bool) (ops : List SessionOp)
    (hsort : IsStdSort sort) (hgt : StrictWeak ar.gt) :
    (((WordleState.new wordle garbage : WordleState F).run ar iter sort ops).calculated = false →
      ((WordleState.new wordle garbage : WordleState F).run ar iter sort ops).choices = []) ∧
    (((WordleState.new wordle garbage : WordleState F).run ar iter sort ops).calculated = true →
      ((WordleState.new wordle garbage : WordleState F).run ar iter sort ops).choices.length =
          wordle.full_dict.size ∧
        ((WordleState.new wordle garbage : WordleState F).run ar iter sort ops).choices =
          ((((WordleState.new wordle garbage : WordleState F).run ar iter sort
            ops).reset_calculations).calculate ar iter sort).choices) ∧
    ((((WordleState.new wordle garbage : WordleState F).run ar iter sort ops).calculate
        ar iter sort).calculate ar iter sort =
      ((WordleState.new wordle garbage : WordleState F).run ar iter sort ops).calculate
        ar iter sort) ∧
    (((WordleState.new wordle garbage : WordleState F).run ar iter sort ops).calculate
        ar iter sort).choices.length = wordle.full_dict.size := by
  have hnew : CacheInv ar iter sort (WordleState.new wordle garbage : WordleState F) :=
    cacheInv_of_fresh ar iter sort _ rfl rfl
  have inv := cacheInv_run ar iter sort hsort hgt ops _ hnew
  have hw : ((WordleState.new wordle garbage : WordleState F).run ar iter sort ops).wordle =
      wordle := run_wordle ar iter sort ops _
  have inv2 := cacheInv_step ar iter sort hsort hgt _ SessionOp.calculate inv
  have hflag : (((WordleState.new wordle garbage : WordleState F).run ar iter sort
      ops).calculate ar iter sort).calculated = true := by
    by_cases hc : ((WordleState.new wordle garbage : WordleState F).run ar iter sort
        ops).calculated = true
    · rw [calculate_cached ar iter sort _ hc]; exact hc
    · exact (calculate_fresh ar iter sort _ (by simpa using hc)).2.2
  refine ⟨inv.1, ?_, calculate_cached ar iter sort _ hflag, ?_⟩
  · intro h
    have := inv.2 h
    rw [hw] at this
    exact this
  · have h := (inv2.2 hflag).1
    have hw2 := step_wordle ar iter sort
      ((WordleState.new wordle garbage : WordleState F).run ar iter sort ops)
      SessionOp.calculate
    rw [hw2, hw] at h
    exact h

theorem cache_never_stale_witness :
    (IsStdSort (insertion_sort :
        (GuessChoice Int → GuessChoice Int → Bool) → List (GuessChoice Int) → _) ∧
      StrictWeak int_arith.gt) ∧
    ((((WordleState.new demo_wordle true : WordleState Int).run int_arith List.reverse
        insertion_sort demo_ops).calculated = false →
      ((WordleState.new demo_wordle true : WordleState Int).run int_arith List.reverse
        insertion_sort demo_ops).choices = []) ∧
    (((WordleState.new demo_wordle true : WordleState Int).run int_arith List.reverse
        insertion_sort demo_ops).calculated = true →
      ((WordleState.new demo_wordle true : WordleState Int).run int_arith List.reverse
        insertion_sort demo_ops).choices.length = demo_wordle.full_dict.size ∧
        ((WordleState.new demo_wordle true : WordleState Int).run int_arith List.reverse
          insertion_sort demo_ops).choices =
          ((((WordleState.new demo_wordle true : WordleState Int).run int_arith List.reverse
            insertion_sort demo_ops).reset_calculations).calculate int_arith List.reverse
            insertion_sort).choices) ∧
    ((((WordleState.new demo_wordle true : WordleState Int).run int_arith List.reverse
        insertion_sort demo_ops).calculate int_arith List.reverse insertion_sort).calculate
        int_arith List.reverse insertion_sort =
      ((WordleState.new demo_wordle true : WordleState Int).run int_arith List.reverse
        insertion_sort demo_ops).calculate int_arith List.reverse insertion_sort) ∧
    (((WordleState.new demo_wordle true : WordleState Int).run int_arith List.reverse
        insertion_sort demo_ops).calculate int_arith List.reverse
        insertion_sort).choices.length = demo_wordle.full_dict.size) :=
  ⟨⟨insertion_sort_isStdSort, strictWeak_decide_gt⟩,
    cache_never_stale int_arith List.reverse insertion_sort demo_wordle true demo_ops
      insertion_sort_isStdSort strictWeak_decide_gt⟩

theorem cache_demo :
    ((WordleState.new demo_wordle true : WordleState Int).run int_arith List.reverse
        insertion_sort demo_ops) =
      ⟨demo_wordle, [0, 2],
        [⟨0, -1, 1⟩, ⟨1, -1, 1⟩, ⟨2, -1, 1⟩, ⟨3, -1, 0⟩, ⟨4, -1, 0⟩], true⟩ ∧
    ((WordleState.new demo_wordle true : WordleState Int).run int_arith List.reverse
        insertion_sort (demo_ops ++ [SessionOp.filter ['A', 'B'] ⟨10⟩])) =
      ⟨demo_wordle, [0], [], false⟩ ∧
    ((WordleState.new demo_wordle true : WordleState Int).run int_arith List.reverse
        insertion_sort (demo_ops ++ [SessionOp.reset])) =
      ⟨demo_wordle, [0, 1, 2, 3], [], false⟩ := by decide

end WordleSolver
